import Mathlib

/-!
# Verification of the Record Reconciliation & Derived-Metric Engine

Shallow embedding of the core algorithms of the repository:

* `src/src/normalization.py`   — `create_product_key`
* `src/src/consolidation.py`   — `build_master_product_list`,
  `get_monthly_popularity`, `get_december_data`, `calculate_peak_popularity`,
  `consolidate_data`
* `src/pages/3_📈_MSV_Management.py` — `calculate_peak_seasonality`,
  `calculate_true_peak`, `merge_msv_data`

Tabular data is modelled by `DF` (an ordered list of column names plus a
list of rows, each row a total function from column name to `Cell`).
Numeric cells are modelled by `ℚ`; the Python code computes with IEEE
floats, and the claims settled here do not depend on rounding, so exact
rational arithmetic is used.  Python's `math`-free square roots
(`variance ** 0.5`) are handled exactly: every comparison against a
standard deviation `√v` is encoded by the algebraically equivalent
rational comparison (for `v ≥ 0`: `|x| ≤ √v ↔ x² ≤ v`, and
`a + b·√v ≥ 0` decided by sign analysis and squaring), so all
definitions stay computable.
-/

namespace Consolidation

/-! ## Python string primitives -/

/-- Python's `\s` character class as used by `re.sub(r'\s+', ' ', ...)` and
`str.strip()`: space, tab, newline, carriage return, vertical tab, form feed.
(Exotic Unicode whitespace is not modelled.) -/
def pyIsSpace (c : Char) : Bool :=
  c = ' ' || c = '\t' || c = '\n' || c = '\r' || c.val = 11 || c.val = 12

/-- ASCII lowercasing, modelling `str.lower()` on the character range that
survives the `[^a-z0-9\s]` filter. -/
def pyLower (c : Char) : Char := c.toLower

/-- A character kept by `re.sub(r'[^a-z0-9\s]', '', ...)`. -/
def keepChar (c : Char) : Bool :=
  ('a' ≤ c && c ≤ 'z') || ('0' ≤ c && c ≤ '9') || pyIsSpace c

/-- `re.sub(r'\s+', ' ', ...)`: replace every maximal run of whitespace by a
single space. -/
def collapseWS : List Char → List Char
  | [] => []
  | c :: cs =>
    if pyIsSpace c then ' ' :: collapseWS (cs.dropWhile pyIsSpace)
    else c :: collapseWS cs
  termination_by l => l.length
  decreasing_by
  · exact Nat.lt_succ_of_le (List.Sublist.length_le (List.dropWhile_sublist _))
  · simp

/-- `str.strip()`: drop leading and trailing whitespace. -/
def pyStrip (l : List Char) : List Char :=
  ((l.dropWhile pyIsSpace).reverse.dropWhile pyIsSpace).reverse

/-- `str.strip()` on a `String`. -/
def stripStr (s : String) : String := String.mk (pyStrip s.data)

/-- `str.lower()` on a `String`. -/
def lowerStr (s : String) : String := String.mk (s.data.map pyLower)

/-- Substring containment, modelling Python's `needle in haystack`. -/
def containsSub (needle hay : String) : Bool :=
  hay.data.tails.any (fun t => needle.data.isPrefixOf t)

/-- `label.split()[0]`: the first whitespace-delimited word of a label
(used to strip the year from `"Jan 2023"`). -/
def firstWord (s : String) : String :=
  String.mk ((s.data.dropWhile pyIsSpace).takeWhile (fun c => ¬ pyIsSpace c))

/-! ## Cells and numeric parsing -/

/-- A tabular cell: missing (`NaN`/`None`), a number, or a string. -/
inductive Cell where
  | null : Cell
  | num : ℚ → Cell
  | str : String → Cell
deriving DecidableEq, Repr

/-- Decimal digit value. -/
def digitVal (c : Char) : ℚ := ((c.toNat - '0'.toNat : ℕ) : ℚ)

/-- Value of a digit run read most-significant first, scaled onto `acc`. -/
def digitsVal (acc : ℚ) : List Char → ℚ
  | [] => acc
  | c :: cs => digitsVal (acc * 10 + digitVal c) cs

/-- Parse a plain decimal numeral (optional sign, digits, optional fractional
part), modelling Python's `float()` on the numeric literals that occur in the
data; anything else fails like `float()` raising `ValueError`. -/
def parseDec (s : String) : Option ℚ :=
  let l := pyStrip s.data
  let (sign, l) : ℚ × List Char :=
    match l with
    | '-' :: rest => (-1, rest)
    | '+' :: rest => (1, rest)
    | _ => (1, l)
  let intPart := l.takeWhile Char.isDigit
  let rest := l.dropWhile Char.isDigit
  match rest with
  | [] =>
    if intPart = [] then none else some (sign * digitsVal 0 intPart)
  | '.' :: frac =>
    if frac.all Char.isDigit ∧ (intPart ≠ [] ∨ frac ≠ []) then
      some (sign * (digitsVal 0 intPart +
        digitsVal 0 frac / (10 : ℚ) ^ frac.length))
    else none
  | _ => none

/-- `float(val)` applied to a non-null cell: numbers pass through, strings are
parsed, failure is `none` (Python: `ValueError`). -/
def cellFloat : Cell → Option ℚ
  | Cell.null => none
  | Cell.num q => some q
  | Cell.str s => parseDec s

/-- Render a rational the way the data renders numbers; only used where the
pipeline stringifies a cell (`str(x)`), and no settled claim depends on the
exact digits Python would print for a float. -/
def numToStr (q : ℚ) : String :=
  if q.den = 1 then toString q.num ++ ".0" else toString q.num ++ "/" ++ toString q.den

/-- `str(cell)` as pandas' `astype(str)` behaves: `NaN` becomes `"nan"`. -/
def cellToStr : Cell → String
  | Cell.null => "nan"
  | Cell.num q => numToStr q
  | Cell.str s => s

/-! ## `create_product_key` (src/src/normalization.py lines 21–47) -/

/-- `create_product_key`: `""` for null / non-string input, otherwise
lowercase, drop `[^a-z0-9\s]`, collapse whitespace runs, strip. -/
def create_product_key : Cell → String
  | Cell.null => ""
  | Cell.num _ => ""
  | Cell.str s =>
    String.mk (pyStrip (collapseWS ((s.data.map pyLower).filter keepChar)))

/-! ## Stable sorting (Python's `sorted` / `list.sort`) -/

/-- Insert `x` after every already-placed element `y` with `keep y x`.
With `keep y x = (key y ≤ key x)` this yields Python's stable ascending
sort; with `keep y x = (key y ≥ key x)` the stable descending sort
(`reverse=True`). -/
def insKeep (keep : α → α → Bool) (x : α) : List α → List α
  | [] => [x]
  | y :: ys => if keep y x then y :: insKeep keep x ys else x :: y :: ys

/-- Stable insertion sort: process elements in list order, inserting each
after all retained predecessors. -/
def stableSortBy (keep : α → α → Bool) (l : List α) : List α :=
  l.foldl (fun acc x => insKeep keep x acc) []

/-! ## `calculate_peak_popularity` (src/src/consolidation.py lines 123–180) -/

/-- Canonical month order (src/src/ingestion.py `VALID_MONTHS`). -/
def month_order : List String :=
  ["Jan", "Feb", "Mar", "Apr", "May", "Jun",
   "Jul", "Aug", "Sep", "Oct", "Nov", "Dec"]

/-- The per-month parseable popularity values of a row (the `values` dict of
`calculate_peak_popularity`), in month order. -/
def pop_values (cols : List String) (row : String → Cell)
    (months : List String) : List (String × ℚ) :=
  months.filterMap (fun m =>
    let col := "Product Popularity " ++ m
    if col ∈ cols then (cellFloat (row col)).map (fun q => (m, q)) else none)

/-- `calculate_peak_popularity(row, months)`: stable low-rank months among the
top 4.  `cols` is the row's index (the frame's columns). -/
def calculate_peak_popularity (cols : List String) (row : String → Cell)
    (months : List String) : String :=
  let values := pop_values cols row months
  if values.length < 3 then ""
  else
    let sorted_months := stableSortBy (fun a b => decide (a.2 ≤ b.2)) values
    let top_4_months := sorted_months.take 4
    if top_4_months.length < 3 then
      ((sorted_months.head?).map Prod.fst).getD ""
    else
      let top_ranks := top_4_months.map Prod.snd
      let mean_rank := top_ranks.sum / (top_ranks.length : ℚ)
      let variance := (top_ranks.map (fun x => (x - mean_rank) ^ 2)).sum /
        (top_ranks.length : ℚ)
      -- `abs(rank - mean) <= std_dev` with `std_dev = variance ** 0.5`,
      -- encoded over ℚ as `(rank - mean)² ≤ variance`.
      let stable_months := top_4_months.filter
        (fun p => decide ((p.2 - mean_rank) ^ 2 ≤ variance))
      if stable_months = [] then ((sorted_months.head?).map Prod.fst).getD ""
      else
        let sorted_stable := stableSortBy (fun a b => decide (a.2 ≤ b.2))
          stable_months
        String.intercalate ", " (sorted_stable.map Prod.fst)

/-! ## `calculate_peak_seasonality` (src/pages/3_📈_MSV_Management.py 42–86) -/

/-- The 36 MSV column labels `"Jan 2023" … "Dec 2025"`, year-major as built
by the nested loops in the source. -/
def msv_grid : List String :=
  ([2023, 2024, 2025] : List ℕ).flatMap (fun year =>
    month_order.map (fun m => m ++ " " ++ toString year))

/-- The parseable MSV values of a row over the 36 month-year columns (the
`msv_values` dict of `calculate_peak_seasonality`), in grid order. -/
def msv_values (cols : List String) (row : String → Cell) :
    List (String × ℚ) :=
  msv_grid.filterMap (fun col =>
    if col ∈ cols then (cellFloat (row col)).map (fun q => (col, q)) else none)

/-- `calculate_peak_seasonality(row)`: top-volume months among the 36
month-year MSV columns, within one standard deviation below the top-4 mean. -/
def calculate_peak_seasonality (cols : List String) (row : String → Cell) :
    String :=
  let msv_values := msv_values cols row
  if msv_values = [] then ""
  else
    let sorted_months := stableSortBy (fun a b => decide (b.2 ≤ a.2)) msv_values
    let top_4 := sorted_months.take 4
    if top_4.length < 2 then
      ((top_4.head?).map Prod.fst).getD ""
    else
      let top_values := top_4.map Prod.snd
      let mean_msv := top_values.sum / (top_values.length : ℚ)
      let variance := (top_values.map (fun x => (x - mean_msv) ^ 2)).sum /
        (top_values.length : ℚ)
      -- `msv >= mean - std_dev` with `std_dev = variance ** 0.5`, encoded
      -- over ℚ as `mean - msv ≤ 0 ∨ (mean - msv)² ≤ variance`.
      let peak_months := top_4.filter (fun p =>
        decide (mean_msv - p.2 ≤ 0) || decide ((mean_msv - p.2) ^ 2 ≤ variance))
      String.intercalate ", " (peak_months.map (fun p => firstWord p.1))

/-! ## `calculate_true_peak` (src/pages/3_📈_MSV_Management.py 89–206)

Scores have the form `a + b·√variance` with `a b : ℚ`; they are represented
as the pair `(a, b)` and compared exactly by `sqrtLe`. -/

/-- MSV value of `(month, year)` with blanks and unparseable cells as 0. -/
def msvAt (cols : List String) (row : String → Cell) (m : String) (year : ℕ) :
    ℚ :=
  let col := m ++ " " ++ toString year
  if col ∈ cols then (cellFloat (row col)).getD 0 else 0

/-- Step 1: average of the three yearly values of a month. -/
def monthly_average (cols : List String) (row : String → Cell) (m : String) :
    ℚ :=
  (msvAt cols row m 2023 + msvAt cols row m 2024 + msvAt cols row m 2025) / 3

/-- Mean of the 12 monthly averages. -/
def tpMean (cols : List String) (row : String → Cell) : ℚ :=
  (month_order.map (monthly_average cols row)).sum / 12

/-- Population variance of the 12 monthly averages. -/
def tpVariance (cols : List String) (row : String → Cell) : ℚ :=
  ((month_order.map (monthly_average cols row)).map
    (fun x => (x - tpMean cols row) ^ 2)).sum / 12

/-- Step 3: average of the two year-over-year growth percentages, each 0 when
the earlier year's value is 0. -/
def avg_yoy (cols : List String) (row : String → Cell) (m : String) : ℚ :=
  let v23 := msvAt cols row m 2023
  let v24 := msvAt cols row m 2024
  let v25 := msvAt cols row m 2025
  let yoy24 := if v23 = 0 then 0 else (v24 - v23) / v23 * 100
  let yoy25 := if v24 = 0 then 0 else (v25 - v24) / v24 * 100
  (yoy24 + yoy25) / 2

/-- `max(avg_yoy.values())`. -/
def max_avg_yoy (cols : List String) (row : String → Cell) : ℚ :=
  match month_order.map (avg_yoy cols row) with
  | [] => 0
  | x :: xs => xs.foldl max x

/-- Step 4: normalized YoY — the code divides by the maximum unless the
maximum is exactly 0 (a negative maximum is divided by as well). -/
def normalized_yoy (cols : List String) (row : String → Cell) (m : String) :
    ℚ :=
  if max_avg_yoy cols row = 0 then 0
  else avg_yoy cols row m / max_avg_yoy cols row

/-- Step 5: 1 when both year-over-year comparisons are strictly increasing. -/
def consistency (cols : List String) (row : String → Cell) (m : String) : ℚ :=
  if msvAt cols row m 2024 > msvAt cols row m 2023 ∧
     msvAt cols row m 2025 > msvAt cols row m 2024 then 1 else 0

/-- Decides `p.1 + p.2·√v ≤ q.1 + q.2·√v` for `0 ≤ v` by sign analysis and
squaring (exact counterpart of the float comparison in the source). -/
def sqrtLe (v : ℚ) (p q : ℚ × ℚ) : Bool :=
  let d := q.1 - p.1
  let e := q.2 - p.2
  if 0 ≤ e then decide (0 ≤ d) || decide (d ^ 2 ≤ e ^ 2 * v)
  else decide (0 ≤ d) && decide (e ^ 2 * v ≤ d ^ 2)

/-- Strict version of `sqrtLe`. -/
def sqrtLt (v : ℚ) (p q : ℚ × ℚ) : Bool := ! sqrtLe v q p

/-- Step 6: the composite score of a month, as `(a, b)` meaning
`a + b·√variance` — the z-score `(avg − mean)/√v` is `((avg − mean)/v)·√v`,
and 0 when the standard deviation is 0. -/
def true_peak_score (cols : List String) (row : String → Cell) (m : String) :
    ℚ × ℚ :=
  (4/10 * normalized_yoy cols row m + 2/10 * consistency cols row m,
   if tpVariance cols row = 0 then 0
   else 4/10 * (monthly_average cols row m - tpMean cols row) /
     tpVariance cols row)

/-- `calculate_true_peak(row)`: blended z-score / YoY-growth / consistency
selection of 1–3 months. -/
def calculate_true_peak (cols : List String) (row : String → Cell) : String :=
  if month_order.all (fun m => monthly_average cols row m == 0) then ""
  else
    let v := tpVariance cols row
    let scores : List (String × (ℚ × ℚ)) :=
      month_order.map (fun m => (m, true_peak_score cols row m))
    let high_score_months := scores.filter (fun p => sqrtLt v (1/2, 0) p.2)
    if high_score_months ≠ [] then
      let sorted := stableSortBy (fun a b => sqrtLe v b.2 a.2) high_score_months
      String.intercalate ", " ((sorted.take 3).map Prod.fst)
    else
      -- `max(items, key=...)`: the first month attaining the maximum score.
      match scores with
      | [] => ""
      | s :: rest =>
        (rest.foldl (fun acc p => if sqrtLt v acc.2 p.2 then p else acc) s).1

/-! ## DataFrames

A `DF` is an ordered list of column labels together with a list of rows.
A row is a total function from column label to `Cell`; only its values on
`cols` are meaningful (pandas' `row[c]` / `c in row.index` always go
through the column list). -/

structure DF where
  cols : List String
  rows : List (String → Cell)

/-- `df.drop(columns=bad)`. -/
def dropColsDF (df : DF) (bad : List String) : DF :=
  { cols := df.cols.filter (fun c => ¬ c ∈ bad), rows := df.rows }

/-- `df[name] = df.apply(f, axis=1)`: overwrite the column in place when it
exists, append it otherwise; `f` receives the row with the frame's columns as
its index. -/
def setCol (df : DF) (name : String) (f : List String → (String → Cell) → Cell) :
    DF :=
  { cols := if name ∈ df.cols then df.cols else df.cols ++ [name],
    rows := df.rows.map (fun r => fun c => if c = name then f df.cols r else r c) }

/-- Name a right-hand column gets after a pandas merge with suffixes
`('', suffix)`: renamed only on collision with a left column. -/
def rightName (leftCols : List String) (suffix c : String) : String :=
  if c ∈ leftCols then c ++ suffix else c

/-- A merged row: left cells win on left columns, other columns are looked
up in the (suffix-renamed) right row. -/
def mergeRowFun (leftCols rnk : List String) (suffix : String)
    (lr rr : String → Cell) : String → Cell :=
  fun c =>
    if c ∈ leftCols then lr c
    else
      match rnk.find? (fun rc => rightName leftCols suffix rc == c) with
      | some rc => rr rc
      | none => Cell.null

/-- The merged rows produced by one left row: one per matching right row, or
a single null-filled row when none matches. -/
def mergeRowsFor (left right : DF) (key : String) (suffix : String)
    (lr : String → Cell) : List (String → Cell) :=
  match right.rows.filter (fun rr => decide (rr key = lr key)) with
  | [] => [mergeRowFun left.cols (right.cols.filter (fun c => c ≠ key))
      suffix lr (fun _ => Cell.null)]
  | ms => ms.map (fun rr => mergeRowFun left.cols
      (right.cols.filter (fun c => c ≠ key)) suffix lr rr)

/-- `left.merge(right, on=key, how='left', suffixes=('', suffix))`: one output
row per (left row, matching right row) pair, or a null-filled right side when
no right row matches. -/
def mergeLeft (left right : DF) (key : String) (suffix : String) : DF :=
  { cols := left.cols ++ (right.cols.filter (fun c => c ≠ key)).map
      (rightName left.cols suffix),
    rows := left.rows.flatMap (mergeRowsFor left right key suffix) }

/-! ## `merge_msv_data` (src/pages/3_📈_MSV_Management.py lines 209–288) -/

/-- Join-key candidates, in priority order. -/
def msv_candidates : List String :=
  ["Product Key", "Product Title", "Product Keyword"]

/-- The first candidate present as a column of both tables. -/
def findJoinKey (master msv : DF) : Option String :=
  msv_candidates.find? (fun c => msv.cols.contains c && master.cols.contains c)

/-- `c.endswith('_msv')`. -/
def endsWithMsv (c : String) : Bool := "_msv".data.isSuffixOf c.data

/-- Drop from master every column that will come from the MSV table (except
the join key) and any leftover `_msv`-suffixed column. -/
def dropStale (master msv : DF) (join_key : String) : DF :=
  let incoming := msv.cols.filter (fun c => c ≠ join_key)
  { cols := master.cols.filter (fun c => ¬ (c ∈ incoming ∨ endsWithMsv c = true)),
    rows := master.rows }

/-- The lowercased, stripped string form of a keyword cell
(`.astype(str).str.lower().str.strip()`). -/
def keywordNorm (c : Cell) : String := stripStr (lowerStr (cellToStr c))

/-- The merge itself (before the derivation step): plain left merge on the
join key, except that a keyword join goes through a temporary lowercased
`_join_lower` column and discards the MSV file's own keyword column. -/
def rawMergeMsv (master msv : DF) (join_key : String) : DF :=
  let m := dropStale master msv join_key
  if join_key = "Product Keyword" then
    let c1 := setCol m "_join_lower"
      (fun _ r => Cell.str (keywordNorm (r "Product Keyword")))
    let v1 := setCol (dropColsDF msv ["Product Keyword"]) "_join_lower"
      (fun _ r => Cell.str (keywordNorm (r "Product Keyword")))
    dropColsDF (mergeLeft c1 v1 "_join_lower" "_msv") ["_join_lower"]
  else
    mergeLeft m msv join_key "_msv"

/-- A Peak Seasonality cell that counts as empty:
`astype(str).str.strip()` equal to `''`, `'nan'` or `'None'`. -/
def effectivelyEmpty (c : Cell) : Bool :=
  let s := stripStr (cellToStr c)
  s == "" || s == "nan" || s == "None"

/-- The recalculation guard: Peak Seasonality column missing, or every value
effectively empty. -/
def should_calculate (df : DF) : Bool :=
  if "Peak Seasonality" ∈ df.cols then
    df.rows.all (fun r => effectivelyEmpty (r "Peak Seasonality"))
  else true

/-- `[c for c in merged_df.columns if 'Jan 20' in str(c) or 'Dec 20' in str(c)]`. -/
def sample_cols (df : DF) : List String :=
  df.cols.filter (fun c => containsSub "Jan 20" c || containsSub "Dec 20" c)

/-- The post-merge derivation step: when the guard and the month-column
sample both pass, Peak Seasonality and then True Peak are (re)computed. -/
def deriveStep (df : DF) : DF :=
  if should_calculate df then
    if sample_cols df ≠ [] then
      let d1 := setCol df "Peak Seasonality"
        (fun cols r => Cell.str (calculate_peak_seasonality cols r))
      setCol d1 "True Peak"
        (fun cols r => Cell.str (calculate_true_peak cols r))
    else df
  else df

/-- `merge_msv_data(consolidated_df, msv_df)`; the `ValueError` raised when no
join key is available becomes `Except.error`. -/
def merge_msv_data (master msv : DF) : Except String DF :=
  match findJoinKey master msv with
  | none => Except.error
      "MSV file must contain a join key column that also exists in the consolidated data."
  | some k => Except.ok (deriveStep (rawMergeMsv master msv k))

/-! ## Master list & consolidation (src/src/consolidation.py) -/

/-- `drop_duplicates(subset=key, keep='first')`. -/
def dedupKeepFirstBy {β : Type} [DecidableEq β] (key : α → β) :
    List α → List α
  | [] => []
  | x :: xs =>
    x :: dedupKeepFirstBy key (xs.filter (fun y => key y ≠ key x))
  termination_by l => l.length
  decreasing_by
    exact Nat.lt_succ_of_le (List.length_filter_le _ _)

/-- `normalize_column_names`: strip whitespace from the column labels (rows
are re-indexed accordingly). -/
def normalize_column_names (df : DF) : DF :=
  { cols := df.cols.map stripStr,
    rows := df.rows.map (fun r => fun c =>
      match df.cols.find? (fun c0 => stripStr c0 == c) with
      | some c0 => r c0
      | none => r c) }

/-- First column whose stripped lowercase form equals `target`
(`get_column_mapping`'s matching rule). -/
def findColBy (cols : List String) (target : String) : Option String :=
  cols.find? (fun c => lowerStr (stripStr c) == target)

/-- `col_mapping.get("Product Title", "Product Title")`: exact match on
`"Title"` first, then the `"Product Title"` alias, then the default. -/
def titleCol (cols : List String) : String :=
  ((findColBy cols "title").orElse (fun _ => findColBy cols "product title")).getD
    "Product Title"

/-- `col_mapping.get("Brand", "Brand")`. -/
def brandCol (cols : List String) : String :=
  (findColBy cols "brand").getD "Brand"

/-- `col_mapping.get("Popularity rank", "Popularity rank")`. -/
def popularityCol (cols : List String) : String :=
  (findColBy cols "popularity rank").getD "Popularity rank"

/-- `col_mapping.get("Price range max.", "Price range max.")`. -/
def priceCol (cols : List String) : String :=
  (findColBy cols "price range max.").getD "Price range max."

/-- `col_mapping.get("Availability", "Availability")`. -/
def availCol (cols : List String) : String :=
  (findColBy cols "availability").getD "Availability"

/-- `monthly_data[month]` on the ordered month→frame dictionary. -/
def monthLookup (monthly : List (String × DF)) (m : String) : Option DF :=
  (monthly.find? (fun p => p.1 = m)).map (fun p => p.2)

/-- The `(key, title, brand)` records extracted from one month's frame, in
file (row) order: `row.get(title_col, "")` / `row.get(brand_col, "")`,
rows with an empty key skipped. -/
def frame_records (df0 : DF) : List (String × Cell × Cell) :=
  let df := normalize_column_names df0
  let tcol := titleCol df.cols
  let bcol := brandCol df.cols
  df.rows.filterMap (fun r =>
    let title : Cell := if tcol ∈ df.cols then r tcol else Cell.str ""
    let brand : Cell := if bcol ∈ df.cols then r bcol else Cell.str ""
    let key := create_product_key title
    if key ≠ "" then some (key, title, brand) else none)

/-- The concatenated record stream of all months, in the order the
dictionary supplies them (`for month, df in monthly_data.items()`). -/
def master_records (monthly : List (String × DF)) :
    List (String × Cell × Cell) :=
  monthly.flatMap (fun p => frame_records p.2)

/-- One master row from a `(key, title, brand)` record. -/
def masterRowOf (q : String × Cell × Cell) : String → Cell := fun c =>
  if c = "product_key" then Cell.str q.1
  else if c = "Product Title" then q.2.1
  else if c = "Product Brand" then q.2.2
  else Cell.null

/-- `build_master_product_list(monthly_data)`: one `(key, title, brand)`
record per row with a non-empty key, iterated in the dictionary's own order,
deduplicated by key keeping the first occurrence. -/
def build_master_product_list (monthly : List (String × DF)) : DF :=
  { cols := ["product_key", "Product Title", "Product Brand"],
    rows := (dedupKeepFirstBy (fun q => q.1) (master_records monthly)).map
      masterRowOf }

/-- `get_monthly_popularity(monthly_data, month)`.  (`df[title_col]` /
`df[popularity_col]` presuppose the columns exist; rows being total
functions, the model reads them directly.) -/
def get_monthly_popularity (monthly : List (String × DF)) (m : String) : DF :=
  let popName := "Product Popularity " ++ m
  match monthLookup monthly m with
  | none => { cols := ["product_key", popName], rows := [] }
  | some df0 =>
    let df := normalize_column_names df0
    let tcol := titleCol df.cols
    let pcol := popularityCol df.cols
    let recs : List (String × Cell) :=
      df.rows.map (fun r => (create_product_key (r tcol), r pcol))
    let dedup := dedupKeepFirstBy Prod.fst recs
    { cols := ["product_key", popName],
      rows := dedup.map (fun q => fun c =>
        if c = "product_key" then Cell.str q.1
        else if c = popName then q.2
        else Cell.null) }

/-- `get_december_data(monthly_data)`. -/
def get_december_data (monthly : List (String × DF)) : DF :=
  match monthLookup monthly "Dec" with
  | none => { cols := ["product_key", "Product Max Price", "Availability"],
              rows := [] }
  | some df0 =>
    let df := normalize_column_names df0
    let tcol := titleCol df.cols
    let prcol := priceCol df.cols
    let avcol := availCol df.cols
    let recs : List (String × Cell × Cell) :=
      df.rows.map (fun r => (create_product_key (r tcol), r prcol, r avcol))
    let dedup := dedupKeepFirstBy (fun q => q.1) recs
    { cols := ["product_key", "Product Max Price", "Availability"],
      rows := dedup.map (fun q => fun c =>
        if c = "product_key" then Cell.str q.1
        else if c = "Product Max Price" then q.2.1
        else if c = "Availability" then q.2.2
        else Cell.null) }

/-- `add_category_level_columns` with the category classifier as an explicit
collaborator (`classify title = (L1, L2, L3)`); the spec treats the
keyword-matching classifier as an external component, so it is a parameter
here. -/
def add_category_level_columns (classify : Cell → String × String × String)
    (df : DF) : DF :=
  let d1 := setCol df "Product Category L1"
    (fun _ r => Cell.str (classify (r "Product Title")).1)
  let d2 := setCol d1 "Product Category L2"
    (fun _ r => Cell.str (classify (r "Product Title")).2.1)
  setCol d2 "Product Category L3"
    (fun _ r => Cell.str (classify (r "Product Title")).2.2)

/-- Steps 1–4 of `consolidate_data`: master list, category columns, December
price/availability merge with its defaulting pass, and the twelve monthly
popularity left-joins. -/
def consolidate_merged (classify : Cell → String × String × String)
    (monthly : List (String × DF)) : DF :=
  let master := build_master_product_list monthly
  let m1 := add_category_level_columns classify master
  let m2 := mergeLeft m1 (get_december_data monthly) "product_key" "_y"
  let m3 := setCol m2 "Product Max Price" (fun _ r =>
    match r "Product Max Price" with
    | Cell.null => Cell.str "N/A"
    | x => Cell.str (cellToStr x))
  let m4 := setCol m3 "Availability" (fun _ r =>
    let x := r "Availability"
    if x ≠ Cell.null ∧ stripStr (cellToStr x) ≠ "" then x
    else Cell.str "Potential Gap")
  month_order.foldl
    (fun acc m => mergeLeft acc (get_monthly_popularity monthly m)
      "product_key" "_y") m4

/-- The output column order of `consolidate_data` (step 7). -/
def output_columns : List String :=
  ["Product Title", "Product Max Price", "Product Category L1",
   "Product Category L2", "Product Category L3", "Product Keyword",
   "Product Keyword Avg MSV", "Product Brand", "Availability"] ++
  month_order.map (fun m => "Product Popularity " ++ m) ++
  msv_grid ++ ["Peak Seasonality", "Peak Popularity"]

/-- `consolidate_data(monthly_data, product_type)` (the classifier for the
given product type is the `classify` collaborator). -/
def consolidate_data (classify : Cell → String × String × String)
    (monthly : List (String × DF)) : DF :=
  if (build_master_product_list monthly).rows.isEmpty then { cols := [], rows := [] }
  else
    let m5 := consolidate_merged classify monthly
    let m6 := setCol m5 "Peak Popularity"
      (fun cols r => Cell.str (calculate_peak_popularity cols r month_order))
    let m7 := setCol m6 "Product Keyword" (fun _ _ => Cell.str "")
    let m8 := setCol m7 "Product Keyword Avg MSV" (fun _ _ => Cell.str "")
    let m9 := msv_grid.foldl
      (fun acc c => setCol acc c (fun _ _ => Cell.str "")) m8
    let m10 := setCol m9 "Peak Seasonality" (fun _ _ => Cell.str "")
    { cols := output_columns.filter (fun c => c ∈ m10.cols), rows := m10.rows }

/-! ## Properties of `create_product_key` -/

/-- Character shape of a normalized key: lowercase letter, digit, or the
single space. -/
def charOK (c : Char) : Bool :=
  (decide ('a' ≤ c) && decide (c ≤ 'z')) ||
  (decide ('0' ≤ c) && decide (c ≤ '9')) || decide (c = ' ')

/-- No two adjacent whitespace characters. -/
def noDoubleSpace : List Char → Bool
  | a :: b :: t => !(pyIsSpace a && pyIsSpace b) && noDoubleSpace (b :: t)
  | _ => true

theorem pyIsSpace_toNat {c : Char} (h : pyIsSpace c = true) : c.toNat ≤ 32 := by
  simp only [pyIsSpace, Bool.or_eq_true, decide_eq_true_eq] at h
  rcases h with ((((h | h) | h) | h) | h) | h
  · subst h; decide
  · subst h; decide
  · subst h; decide
  · subst h; decide
  · have h1 : c.toNat = (11 : UInt32).toNat := congrArg UInt32.toNat h
    have h2 : (11 : UInt32).toNat = 11 := rfl
    omega
  · have h1 : c.toNat = (12 : UInt32).toNat := congrArg UInt32.toNat h
    have h2 : (12 : UInt32).toNat = 12 := rfl
    omega

theorem charOK_class {c : Char} (h : charOK c = true) :
    (97 ≤ c.toNat ∧ c.toNat ≤ 122) ∨ (48 ≤ c.toNat ∧ c.toNat ≤ 57) ∨ c = ' ' := by
  simp only [charOK, Bool.or_eq_true, Bool.and_eq_true, decide_eq_true_eq] at h
  rcases h with (⟨h1, h2⟩ | ⟨h1, h2⟩) | h
  · exact Or.inl ⟨by simpa [Char.le_def] using h1, by simpa [Char.le_def] using h2⟩
  · exact Or.inr (Or.inl ⟨by simpa [Char.le_def] using h1,
      by simpa [Char.le_def] using h2⟩)
  · exact Or.inr (Or.inr h)

theorem charOK_space_eq {c : Char} (h : charOK c = true)
    (hs : pyIsSpace c = true) : c = ' ' := by
  rcases charOK_class h with h1 | h1 | h1
  · exact absurd (pyIsSpace_toNat hs) (by omega)
  · exact absurd (pyIsSpace_toNat hs) (by omega)
  · exact h1

theorem pyLower_fix {c : Char} (h : charOK c = true) : pyLower c = c := by
  have hn : ¬ (c.toNat ≥ 65 ∧ c.toNat ≤ 90) := by
    rcases charOK_class h with h1 | h1 | h1
    · omega
    · omega
    · subst h1; decide
  simp only [pyLower, Char.toLower, if_neg hn]

theorem keep_of_charOK {c : Char} (h : charOK c = true) : keepChar c = true := by
  simp only [charOK, Bool.or_eq_true, Bool.and_eq_true, decide_eq_true_eq] at h
  simp only [keepChar, Bool.or_eq_true, Bool.and_eq_true, decide_eq_true_eq]
  rcases h with (⟨h1, h2⟩ | ⟨h1, h2⟩) | h
  · exact Or.inl (Or.inl ⟨by simpa using h1, by simpa using h2⟩)
  · exact Or.inl (Or.inr ⟨by simpa using h1, by simpa using h2⟩)
  · subst h; exact Or.inr (by decide)

theorem charOK_of_keep_nonspace {c : Char} (h : keepChar c = true)
    (hs : pyIsSpace c = false) : charOK c = true := by
  simp only [keepChar, Bool.or_eq_true, Bool.and_eq_true] at h
  simp only [charOK, Bool.or_eq_true, Bool.and_eq_true]
  rcases h with (h | h) | h
  · exact Or.inl (Or.inl h)
  · exact Or.inl (Or.inr h)
  · rw [h] at hs; cases hs

theorem mem_collapseWS {l : List Char} {c : Char} (h : c ∈ collapseWS l) :
    c = ' ' ∨ (c ∈ l ∧ pyIsSpace c = false) := by
  induction l using collapseWS.induct with
  | case1 => simp [collapseWS] at h
  | case2 a cs hsp ih =>
    rw [collapseWS, if_pos hsp] at h
    rcases List.mem_cons.mp h with h | h
    · exact Or.inl h
    · rcases ih h with h' | ⟨hm, hns⟩
      · exact Or.inl h'
      · exact Or.inr ⟨List.mem_cons_of_mem _
          ((List.dropWhile_sublist _).mem hm), hns⟩
  | case3 a cs hsp ih =>
    rw [collapseWS, if_neg hsp] at h
    rcases List.mem_cons.mp h with h | h
    · subst h; exact Or.inr ⟨List.mem_cons_self _ _, by simpa using hsp⟩
    · rcases ih h with h' | ⟨hm, hns⟩
      · exact Or.inl h'
      · exact Or.inr ⟨List.mem_cons_of_mem _ hm, hns⟩

theorem filter_nonspace_dropWhile (l : List Char) :
    (l.dropWhile pyIsSpace).filter (fun c => !pyIsSpace c) =
      l.filter (fun c => !pyIsSpace c) := by
  induction l with
  | nil => rfl
  | cons a t ih =>
    by_cases h : pyIsSpace a = true
    · rw [List.dropWhile_cons_of_pos h, ih, List.filter_cons_of_neg (by simp [h])]
    · rw [List.dropWhile_cons_of_neg h]

theorem collapseWS_filter (l : List Char) :
    (collapseWS l).filter (fun c => !pyIsSpace c) =
      l.filter (fun c => !pyIsSpace c) := by
  induction l using collapseWS.induct with
  | case1 => rw [collapseWS]
  | case2 a cs hsp ih =>
    rw [collapseWS, if_pos hsp, List.filter_cons_of_neg (by simp [pyIsSpace]),
      ih, filter_nonspace_dropWhile, List.filter_cons_of_neg (by simp [hsp])]
  | case3 a cs hsp ih =>
    rw [collapseWS, if_neg hsp, List.filter_cons_of_pos (by simp [hsp]),
      ih, List.filter_cons_of_pos (by simp [hsp])]

theorem collapseWS_head (l : List Char) :
    (collapseWS l).head? = l.head?.map (fun c => if pyIsSpace c then ' ' else c) := by
  cases l with
  | nil => rw [collapseWS]; rfl
  | cons a t =>
    by_cases h : pyIsSpace a = true
    · rw [collapseWS, if_pos h]; simp [h]
    · rw [collapseWS, if_neg h]; simp [h]

theorem dropWhile_head?_false {p : α → Bool} {l : List α} {c : α}
    (h : (l.dropWhile p).head? = some c) : p c = false := by
  induction l with
  | nil => simp at h
  | cons a t ih =>
    by_cases hp : p a = true
    · rw [List.dropWhile_cons_of_pos hp] at h; exact ih h
    · rw [List.dropWhile_cons_of_neg hp] at h
      simp at h; subst h; simpa using hp

theorem noDouble_cons_of {a : Char} {t : List Char}
    (h1 : noDoubleSpace t = true)
    (h2 : ∀ b, t.head? = some b → (pyIsSpace a && pyIsSpace b) = false) :
    noDoubleSpace (a :: t) = true := by
  cases t with
  | nil => rfl
  | cons b t' =>
    simp only [noDoubleSpace, Bool.and_eq_true, Bool.not_eq_true']
    exact ⟨h2 b rfl, h1⟩

theorem noDouble_tail {a : Char} {t : List Char}
    (h : noDoubleSpace (a :: t) = true) : noDoubleSpace t = true := by
  cases t with
  | nil => rfl
  | cons b t' =>
    simp only [noDoubleSpace, Bool.and_eq_true] at h
    exact h.2

theorem noDouble_collapseWS (l : List Char) :
    noDoubleSpace (collapseWS l) = true := by
  induction l using collapseWS.induct with
  | case1 => rw [collapseWS]; rfl
  | case2 a cs hsp ih =>
    rw [collapseWS, if_pos hsp]
    refine noDouble_cons_of ih (fun b hb => ?_)
    rw [collapseWS_head] at hb
    cases hh : (cs.dropWhile pyIsSpace).head? with
    | none => rw [hh] at hb; simp at hb
    | some c0 =>
      rw [hh] at hb
      have := dropWhile_head?_false hh
      simp [this] at hb
      subst hb; simp [this]
  | case3 a cs hsp ih =>
    rw [collapseWS, if_neg hsp]
    exact noDouble_cons_of ih (fun b _ => by simp [hsp])

theorem noDouble_append_right {xs ys : List Char}
    (h : noDoubleSpace (xs ++ ys) = true) : noDoubleSpace ys = true := by
  induction xs with
  | nil => exact h
  | cons a t ih => exact ih (noDouble_tail h)

theorem noDouble_append_left {xs ys : List Char}
    (h : noDoubleSpace (xs ++ ys) = true) : noDoubleSpace xs = true := by
  induction xs with
  | nil => rfl
  | cons a t ih =>
    refine noDouble_cons_of (ih (noDouble_tail h)) (fun b hb => ?_)
    cases t with
    | nil => simp at hb
    | cons c t' =>
      have hcb : c = b := by simpa using hb
      subst hcb
      have h' : noDoubleSpace (a :: c :: (t' ++ ys)) = true := by
        simpa using h
      simp only [noDoubleSpace, Bool.and_eq_true, Bool.not_eq_true'] at h'
      exact h'.1

theorem noDouble_infix {l' l : List Char} (h : l' <:+: l)
    (hd : noDoubleSpace l = true) : noDoubleSpace l' = true := by
  obtain ⟨s, t, rfl⟩ := h
  exact noDouble_append_left (noDouble_append_right (by simpa using hd))

theorem pyStrip_prefix_dropWhile (l : List Char) :
    pyStrip l <+: l.dropWhile pyIsSpace := by
  unfold pyStrip
  have h1 : ((l.dropWhile pyIsSpace).reverse.dropWhile pyIsSpace) <:+
      (l.dropWhile pyIsSpace).reverse := List.dropWhile_suffix _
  have := List.reverse_prefix.mpr h1
  simpa using this

theorem pyStrip_infix_self (l : List Char) : pyStrip l <:+: l :=
  ((pyStrip_prefix_dropWhile l).isInfix).trans
    ((List.dropWhile_suffix _).isInfix)

theorem pyStrip_head {l : List Char} {c : Char}
    (h : (pyStrip l).head? = some c) : pyIsSpace c = false := by
  obtain ⟨t, ht⟩ := pyStrip_prefix_dropWhile l
  cases hs : pyStrip l with
  | nil => rw [hs] at h; cases h
  | cons a u =>
    rw [hs] at h ht
    have hac : a = c := by simpa using h
    subst hac
    have hh : (l.dropWhile pyIsSpace).head? = some a := by rw [← ht]; rfl
    exact dropWhile_head?_false hh

theorem pyStrip_getLast {l : List Char} {c : Char}
    (h : (pyStrip l).getLast? = some c) : pyIsSpace c = false := by
  unfold pyStrip at h
  rw [List.getLast?_reverse] at h
  exact dropWhile_head?_false h

theorem dropWhile_eq_self_of_head {l : List Char}
    (h : ∀ c, l.head? = some c → pyIsSpace c = false) :
    l.dropWhile pyIsSpace = l := by
  cases l with
  | nil => rfl
  | cons a t => exact List.dropWhile_cons_of_neg (by simp [h a rfl])

theorem pyStrip_eq_self {l : List Char}
    (h1 : ∀ c, l.head? = some c → pyIsSpace c = false)
    (h2 : ∀ c, l.getLast? = some c → pyIsSpace c = false) :
    pyStrip l = l := by
  unfold pyStrip
  rw [dropWhile_eq_self_of_head h1]
  rw [dropWhile_eq_self_of_head (fun c hc => h2 c (by
    rw [← List.head?_reverse]; exact hc))]
  exact List.reverse_reverse l

theorem filter_nonspace_pyStrip (l : List Char) :
    (pyStrip l).filter (fun c => !pyIsSpace c) =
      l.filter (fun c => !pyIsSpace c) := by
  unfold pyStrip
  rw [List.filter_reverse, filter_nonspace_dropWhile, List.filter_reverse,
    List.reverse_reverse, filter_nonspace_dropWhile]

theorem collapseWS_eq_self {l : List Char}
    (hsp : ∀ c ∈ l, pyIsSpace c = true → c = ' ')
    (hnd : noDoubleSpace l = true) : collapseWS l = l := by
  induction l using collapseWS.induct with
  | case1 => rw [collapseWS]
  | case2 a cs ha ih =>
    rw [collapseWS, if_pos ha]
    have ha' : a = ' ' := hsp a (List.mem_cons_self _ _) ha
    have hdw : cs.dropWhile pyIsSpace = cs := by
      refine dropWhile_eq_self_of_head (fun c hc => ?_)
      cases cs with
      | nil => simp at hc
      | cons b t =>
        have hcb : b = c := by simpa using hc
        subst hcb
        simp only [noDoubleSpace, Bool.and_eq_true, Bool.not_eq_true'] at hnd
        rcases Bool.and_eq_false_iff.mp hnd.1 with h | h
        · rw [ha] at h; cases h
        · exact h
    rw [hdw] at ih
    rw [hdw, ih (fun c hc h => hsp c (List.mem_cons_of_mem _ hc) h)
      (noDouble_tail hnd), ha']
  | case3 a cs ha ih =>
    rw [collapseWS, if_neg ha,
      ih (fun c hc h => hsp c (List.mem_cons_of_mem _ hc) h) (noDouble_tail hnd)]

/-- All characters of a normalized key are lowercase alphanumeric or `' '`. -/
theorem create_product_key_charOK {s : String} {c : Char}
    (h : c ∈ (create_product_key (Cell.str s)).data) : charOK c = true := by
  simp only [create_product_key] at h
  have h1 := (pyStrip_infix_self _).sublist.mem h
  rcases mem_collapseWS h1 with rfl | ⟨h2, h3⟩
  · simp [charOK]
  · exact charOK_of_keep_nonspace (List.of_mem_filter h2) h3

/-- The head of a normalized key is not whitespace. -/
theorem create_product_key_head {s : String} {c : Char}
    (h : (create_product_key (Cell.str s)).data.head? = some c) :
    pyIsSpace c = false :=
  pyStrip_head h

/-- The last character of a normalized key is not whitespace. -/
theorem create_product_key_last {s : String} {c : Char}
    (h : (create_product_key (Cell.str s)).data.getLast? = some c) :
    pyIsSpace c = false :=
  pyStrip_getLast h

/-- A normalized key has no two adjacent whitespace characters. -/
theorem create_product_key_noDouble (s : String) :
    noDoubleSpace (create_product_key (Cell.str s)).data = true :=
  noDouble_infix (pyStrip_infix_self _) (noDouble_collapseWS _)

/-- The non-whitespace content of a normalized key is exactly the kept
lowered characters of the input. -/
theorem create_product_key_content (s : String) :
    (create_product_key (Cell.str s)).data.filter (fun c => !pyIsSpace c) =
      (s.data.map pyLower).filter (fun c => keepChar c && !pyIsSpace c) := by
  simp only [create_product_key]
  rw [filter_nonspace_pyStrip, collapseWS_filter, List.filter_filter]
  exact List.filter_congr (fun c _ => by rw [Bool.and_comm])

/-- C8: `normalize_key` (`create_product_key`) is a total function into
strings that never raises: null or non-string (numeric) input yields `""`;
a string input yields its lowercased form with every character outside
`[a-z0-9]`-or-whitespace removed (the filtered lowered characters are exactly
the non-space content of the result, in order), every whitespace run
collapsed to a single `' '` (all characters are lowercase alphanumerics or
`' '`, with no two adjacent spaces), and no leading or trailing whitespace. -/
theorem C8_normalize_key_total :
    create_product_key Cell.null = "" ∧
    (∀ q : ℚ, create_product_key (Cell.num q) = "") ∧
    ∀ s : String,
      ((create_product_key (Cell.str s)).data.all charOK) = true ∧
      (((create_product_key (Cell.str s)).data.head? == some ' ') = false) ∧
      (((create_product_key (Cell.str s)).data.getLast? == some ' ') = false) ∧
      noDoubleSpace (create_product_key (Cell.str s)).data = true ∧
      (create_product_key (Cell.str s)).data.filter (fun c => !pyIsSpace c) =
        (s.data.map pyLower).filter (fun c => keepChar c && !pyIsSpace c) := by
  refine ⟨rfl, fun _ => rfl, fun s => ⟨?_, ?_, ?_, ?_, ?_⟩⟩
  · exact List.all_eq_true.mpr (fun c hc => create_product_key_charOK hc)
  · rw [beq_eq_false_iff_ne]
    intro h
    have := create_product_key_head h
    simp [pyIsSpace] at this
  · rw [beq_eq_false_iff_ne]
    intro h
    have := create_product_key_last h
    simp [pyIsSpace] at this
  · exact create_product_key_noDouble s
  · exact create_product_key_content s

/-- Any string whose characters are all `charOK`, with no double spaces and
non-space endpoints, is a fixed point of `create_product_key`. -/
theorem create_product_key_fixed {k : String}
    (h1 : ∀ c ∈ k.data, charOK c = true)
    (h2 : noDoubleSpace k.data = true)
    (h3 : ∀ c, k.data.head? = some c → pyIsSpace c = false)
    (h4 : ∀ c, k.data.getLast? = some c → pyIsSpace c = false) :
    create_product_key (Cell.str k) = k := by
  obtain ⟨d⟩ := k
  show String.mk (pyStrip (collapseWS ((d.map pyLower).filter keepChar))) =
    String.mk d
  have hmap : d.map pyLower = d := by
    have h := List.map_congr_left (l := d) (f := pyLower) (g := id)
      (fun c hc => pyLower_fix (h1 c hc))
    rw [h, List.map_id]
  rw [hmap, List.filter_eq_self.mpr (fun c hc => keep_of_charOK (h1 c hc)),
    collapseWS_eq_self (fun c hc hs => charOK_space_eq (h1 c hc) hs) h2,
    pyStrip_eq_self h3 h4]

/-- C9: key normalization is idempotent —
`normalize_key(normalize_key(s)) = normalize_key(s)` for all strings. -/
theorem C9_normalize_key_idempotent (s : String) :
    create_product_key (Cell.str (create_product_key (Cell.str s))) =
      create_product_key (Cell.str s) :=
  create_product_key_fixed
    (fun _ hc => create_product_key_charOK hc)
    (create_product_key_noDouble s)
    (fun _ => create_product_key_head)
    (fun _ => create_product_key_last)

/-! ## Properties of the peak calculators -/

theorem insKeep_perm (keep : α → α → Bool) (x : α) (l : List α) :
    (insKeep keep x l).Perm (x :: l) := by
  induction l with
  | nil => exact List.Perm.refl _
  | cons y ys ih =>
    rw [insKeep]
    by_cases h : keep y x = true
    · rw [if_pos h]
      exact (ih.cons y).trans (List.Perm.swap x y ys)
    · rw [if_neg h]

theorem foldl_insKeep_perm (keep : α → α → Bool) :
    ∀ (l acc : List α),
      (l.foldl (fun acc x => insKeep keep x acc) acc).Perm (l ++ acc)
  | [], acc => by simp
  | x :: xs, acc => by
    rw [List.foldl_cons]
    refine (foldl_insKeep_perm keep xs (insKeep keep x acc)).trans ?_
    refine (List.Perm.append_left xs (insKeep_perm keep x acc)).trans ?_
    exact List.perm_middle

theorem stableSortBy_perm (keep : α → α → Bool) (l : List α) :
    (stableSortBy keep l).Perm l := by
  have h := foldl_insKeep_perm keep l []
  simpa [stableSortBy] using h

/-- Every entry of `msv_values` is labelled by one of the 36 grid columns. -/
theorem msv_values_label {cols : List String} {row : String → Cell}
    {l : String} {q : ℚ} (h : (l, q) ∈ msv_values cols row) : l ∈ msv_grid := by
  obtain ⟨col, hcol, heq⟩ := List.mem_filterMap.mp h
  by_cases hc : col ∈ cols
  · rw [if_pos hc] at heq
    cases hf : cellFloat (row col) with
    | none => rw [hf] at heq; cases heq
    | some q' =>
      rw [hf] at heq
      simp only [Option.map_some'] at heq
      have hcl : col = l := congrArg Prod.fst (Option.some.inj heq)
      exact hcl ▸ hcol
  · rw [if_neg hc] at heq; cases heq

/-- The bare month name of each grid label is one of the 12 months. -/
theorem firstWord_grid : ∀ l ∈ msv_grid, firstWord l ∈ month_order := by decide

/-- C2 (amended): the Peak Seasonality calculator performs no per-calendar-
month aggregation — it ranks the up-to-36 `(month, year)` columns
individually; its result is a comma-joined list of at most 4 labels, each of
which is either a bare calendar-month name (year stripped, in the ≥ 2-value
branch, where the same month may repeat) or a full month-year column label
(the single-value branch). -/
theorem C2_peak_seasonality_shape (cols : List String) (row : String → Cell) :
    ∃ names : List String,
      calculate_peak_seasonality cols row = String.intercalate ", " names ∧
      names.length ≤ 4 ∧
      ∀ n ∈ names, n ∈ month_order ∨ n ∈ msv_grid := by
  simp only [calculate_peak_seasonality]
  by_cases h0 : msv_values cols row = []
  · rw [if_pos h0]
    exact ⟨[], rfl, by simp, by simp⟩
  · rw [if_neg h0]
    by_cases h1 :
        ((stableSortBy (fun a b => decide (b.2 ≤ a.2))
          (msv_values cols row)).take 4).length < 2
    · rw [if_pos h1]
      cases hh : ((stableSortBy (fun a b => decide (b.2 ≤ a.2))
          (msv_values cols row)).take 4).head? with
      | none => exact ⟨[], rfl, by simp, by simp⟩
      | some p =>
        refine ⟨[p.1], by simp [String.intercalate,
          String.intercalate.go], by simp, ?_⟩
        intro n hn
        have hn' : n = p.1 := by simpa using hn
        subst hn'
        right
        have hp := List.take_subset 4 _
          (List.mem_of_mem_head? (Option.mem_def.mpr hh))
        exact msv_values_label ((stableSortBy_perm _ _).mem_iff.mp hp)
    · rw [if_neg h1]
      refine ⟨_, rfl, ?_, ?_⟩
      · rw [List.length_map]
        exact le_trans (List.length_filter_le _ _) (List.length_take_le _ _)
      · intro n hn
        obtain ⟨p, hp, rfl⟩ := List.mem_map.mp hn
        left
        have hp1 : p ∈ (stableSortBy (fun a b => decide (b.2 ≤ a.2))
            (msv_values cols row)).take 4 := List.mem_of_mem_filter hp
        have hp2 := List.take_subset 4 _ hp1
        exact firstWord_grid _
          (msv_values_label ((stableSortBy_perm _ _).mem_iff.mp hp2))

/-- Shared helper: with exactly two parseable MSV values the variance band
`msv ≥ mean − √variance` keeps both of them, so both month names are
returned, higher value first. -/
theorem seasonality_two_values (cols : List String) (row : String → Cell)
    (l1 : String) (q1 : ℚ) (l2 : String) (q2 : ℚ)
    (h : msv_values cols row = [(l1, q1), (l2, q2)]) :
    calculate_peak_seasonality cols row =
      (if q2 ≤ q1 then firstWord l1 ++ ", " ++ firstWord l2
       else firstWord l2 ++ ", " ++ firstWord l1) := by
  simp only [calculate_peak_seasonality, h]
  rw [if_neg (by simp)]
  by_cases hq : q2 ≤ q1
  · rw [if_pos hq]
    have hsort : stableSortBy (fun a b : String × ℚ => decide (b.2 ≤ a.2))
        [(l1, q1), (l2, q2)] = [(l1, q1), (l2, q2)] := by
      simp [stableSortBy, insKeep, hq]
    rw [hsort, List.take_of_length_le (by simp)]
    rw [if_neg (by simp)]
    rw [List.filter_cons_of_pos ?c1, List.filter_cons_of_pos ?c2,
      List.filter_nil]
    · simp [String.intercalate, String.intercalate.go]
    case c1 =>
      simp only [Bool.or_eq_true, decide_eq_true_eq]
      refine Or.inl ?_
      simp only [List.map_cons, List.map_nil, List.sum_cons, List.sum_nil,
        List.length_cons, List.length_nil]
      push_cast
      linarith
    case c2 =>
      simp only [Bool.or_eq_true, decide_eq_true_eq]
      refine Or.inr ?_
      simp only [List.map_cons, List.map_nil, List.sum_cons, List.sum_nil,
        List.length_cons, List.length_nil]
      push_cast
      refine le_of_eq (by ring)
  · rw [if_neg hq]
    have hq' : q1 ≤ q2 := le_of_lt (lt_of_not_le hq)
    have hsort : stableSortBy (fun a b : String × ℚ => decide (b.2 ≤ a.2))
        [(l1, q1), (l2, q2)] = [(l2, q2), (l1, q1)] := by
      simp [stableSortBy, insKeep, hq]
    rw [hsort, List.take_of_length_le (by simp)]
    rw [if_neg (by simp)]
    rw [List.filter_cons_of_pos ?d1, List.filter_cons_of_pos ?d2,
      List.filter_nil]
    · simp [String.intercalate, String.intercalate.go]
    case d1 =>
      simp only [Bool.or_eq_true, decide_eq_true_eq]
      refine Or.inl ?_
      simp only [List.map_cons, List.map_nil, List.sum_cons, List.sum_nil,
        List.length_cons, List.length_nil]
      push_cast
      linarith
    case d2 =>
      simp only [Bool.or_eq_true, decide_eq_true_eq]
      refine Or.inr ?_
      simp only [List.map_cons, List.map_nil, List.sum_cons, List.sum_nil,
        List.length_cons, List.length_nil]
      push_cast
      refine le_of_eq (by ring)

/-- C1 (amended): on sparse input the two stable-peak instances differ.  The
Peak Popularity instance returns `""` whenever fewer than 3 months carry a
parseable value (including exactly one or two).  The Peak Seasonality
instance returns `""` only when zero columns carry a value; with exactly one
value it returns that column's full `"Mon YYYY"` label, and with exactly two
values it returns **both** labels' month names, higher volume first (ties in
grid order), not the single best. -/
theorem C1_sparse_fallback (cols : List String) (row : String → Cell) :
    ((pop_values cols row month_order).length < 3 →
      calculate_peak_popularity cols row month_order = "") ∧
    (msv_values cols row = [] → calculate_peak_seasonality cols row = "") ∧
    (∀ l q, msv_values cols row = [(l, q)] →
      calculate_peak_seasonality cols row = l) ∧
    (∀ l1 q1 l2 q2, msv_values cols row = [(l1, q1), (l2, q2)] →
      calculate_peak_seasonality cols row =
        (if q2 ≤ q1 then firstWord l1 ++ ", " ++ firstWord l2
         else firstWord l2 ++ ", " ++ firstWord l1)) := by
  refine ⟨?_, ?_, ?_, ?_⟩
  · intro h
    simp only [calculate_peak_popularity]
    rw [if_pos h]
  · intro h
    simp only [calculate_peak_seasonality]
    rw [if_pos h]
  · intro l q h
    simp only [calculate_peak_seasonality, h]
    simp [stableSortBy, insKeep]
  · intro l1 q1 l2 q2 h
    exact seasonality_two_values cols row l1 q1 l2 q2 h

/-- The two-month popularity row `{Jan: 5, Feb: 9}` of the spec's example. -/
def c1_row : String → Cell := fun c =>
  if c = "Product Popularity Jan" then Cell.num 5
  else if c = "Product Popularity Feb" then Cell.num 9
  else Cell.null

/-- A two-value MSV row `{Jan 2023: 5, Feb 2023: 9}`. -/
def c1s_row : String → Cell := fun c =>
  if c = "Jan 2023" then Cell.num 5
  else if c = "Feb 2023" then Cell.num 9
  else Cell.null

/-- C1 counterexample: on the spec's own example `{Jan: 5, Feb: 9}` (exactly
two parseable months) the Peak Popularity instance returns `""` rather than
the claimed single best month `"Jan"`. -/
theorem C1_counterexample :
    calculate_peak_popularity
      ["Product Popularity Jan", "Product Popularity Feb"] c1_row month_order
        = "" ∧
    calculate_peak_popularity
      ["Product Popularity Jan", "Product Popularity Feb"] c1_row month_order
        ≠ "Jan" := by
  constructor
  · decide
  · decide

/-- Witness: the amended C1 statement at the concrete rows
`{Jan: 5, Feb: 9}` (popularity) and `{Jan 2023: 5, Feb 2023: 9}`
(seasonality, which returns both months, best first). -/
theorem C1_sparse_fallback_witness :
    calculate_peak_popularity
      ["Product Popularity Jan", "Product Popularity Feb"] c1_row month_order
        = "" ∧
    calculate_peak_seasonality ["Jan 2023", "Feb 2023"] c1s_row =
      (if (9 : ℚ) ≤ 5 then firstWord "Jan 2023" ++ ", " ++ firstWord "Feb 2023"
       else firstWord "Feb 2023" ++ ", " ++ firstWord "Jan 2023") :=
  ⟨(C1_sparse_fallback _ c1_row).1 (by decide),
   (C1_sparse_fallback _ c1s_row).2.2.2 "Jan 2023" 5 "Feb 2023" 9 (by decide)⟩

/-- An MSV row `{Jan 2023: 10, Jan 2024: 10}`. -/
def c2_row : String → Cell := fun c =>
  if c = "Jan 2023" then Cell.num 10
  else if c = "Jan 2024" then Cell.num 10
  else Cell.null

/-- C2 counterexample: with `Jan 2023 = Jan 2024 = 10` the Peak Seasonality
result is `"Jan, Jan"` — the calendar month name appears twice, so no
per-calendar-month aggregation happens before the top-4 procedure. -/
theorem C2_counterexample :
    calculate_peak_seasonality ["Jan 2023", "Jan 2024"] c2_row = "Jan, Jan" := by
  have h := seasonality_two_values ["Jan 2023", "Jan 2024"] c2_row
    "Jan 2023" 10 "Jan 2024" 10 (by decide)
  rw [h, if_pos (le_refl (10 : ℚ))]
  rfl

/-! ## Properties of the True Peak normalization step -/

theorem foldl_max_mem : ∀ (xs : List ℚ) (x : ℚ), xs.foldl max x ∈ x :: xs
  | [], x => by simp
  | y :: ys, x => by
    rw [List.foldl_cons]
    rcases List.mem_cons.mp (foldl_max_mem ys (max x y)) with h | h
    · rcases max_choice x y with hm | hm
      · exact List.mem_cons.mpr (Or.inl (h.trans hm))
      · exact List.mem_cons.mpr (Or.inr (List.mem_cons.mpr (Or.inl (h.trans hm))))
    · exact List.mem_cons.mpr (Or.inr (List.mem_cons.mpr (Or.inr h)))

/-- The maximum average YoY is attained by some month. -/
theorem max_avg_yoy_attained (cols : List String) (row : String → Cell) :
    ∃ m ∈ month_order, avg_yoy cols row m = max_avg_yoy cols row := by
  have h : max_avg_yoy cols row ∈ month_order.map (avg_yoy cols row) := by
    simp only [max_avg_yoy, month_order, List.map_cons, List.map_nil]
    exact foldl_max_mem _ _
  obtain ⟨m, hm, hv⟩ := List.mem_map.mp h
  exact ⟨m, hm, hv⟩

/-- If every month has the same average YoY, that value is the maximum. -/
theorem max_avg_yoy_const (cols : List String) (row : String → Cell) (v : ℚ)
    (h : ∀ m ∈ month_order, avg_yoy cols row m = v) :
    max_avg_yoy cols row = v := by
  simp only [max_avg_yoy, month_order, List.map_cons, List.map_nil,
    List.foldl_cons, List.foldl_nil]
  rw [h "Jan" (by decide),
    h "Feb" (by decide),
    h "Mar" (by decide),
    h "Apr" (by decide),
    h "May" (by decide),
    h "Jun" (by decide),
    h "Jul" (by decide),
    h "Aug" (by decide),
    h "Sep" (by decide),
    h "Oct" (by decide),
    h "Nov" (by decide),
    h "Dec" (by decide)]
  simp [max_self]

/-- C5 (amended): the normalized YoY is 0 for every month only when the
maximum average YoY is exactly 0; whenever the maximum is nonzero —
including when it is negative — every month's normalized value is its
average YoY divided by that maximum, and in particular a negative maximum
still normalizes its own month to 1 rather than 0. -/
theorem C5_normalized_yoy (cols : List String) (row : String → Cell) :
    (max_avg_yoy cols row = 0 → ∀ m, normalized_yoy cols row m = 0) ∧
    (max_avg_yoy cols row ≠ 0 → ∀ m, normalized_yoy cols row m =
      avg_yoy cols row m / max_avg_yoy cols row) ∧
    (max_avg_yoy cols row < 0 →
      ∃ m ∈ month_order, normalized_yoy cols row m = 1) := by
  refine ⟨?_, ?_, ?_⟩
  · intro h m
    simp [normalized_yoy, h]
  · intro h m
    simp [normalized_yoy, h]
  · intro h
    obtain ⟨m, hm, hv⟩ := max_avg_yoy_attained cols row
    refine ⟨m, hm, ?_⟩
    rw [normalized_yoy, if_neg (ne_of_lt h), hv]
    exact div_self (ne_of_lt h)

/-- The declining grid: every month has MSV 100 in 2023, 50 in 2024, 25 in
2025, so every month's average YoY is −50 %. -/
def c5_row : String → Cell := fun c =>
  if c ∈ month_order.map (fun m => m ++ " 2023") then Cell.num 100
  else if c ∈ month_order.map (fun m => m ++ " 2024") then Cell.num 50
  else if c ∈ month_order.map (fun m => m ++ " 2025") then Cell.num 25
  else Cell.null

/-- `avg_yoy` in terms of the three yearly values of a month. -/
theorem avg_yoy_of_values (cols : List String) (row : String → Cell)
    (m : String) (a b c : ℚ)
    (h23 : msvAt cols row m 2023 = a) (h24 : msvAt cols row m 2024 = b)
    (h25 : msvAt cols row m 2025 = c) :
    avg_yoy cols row m =
      ((if a = 0 then 0 else (b - a) / a * 100) +
       (if b = 0 then 0 else (c - b) / b * 100)) / 2 := by
  simp only [avg_yoy, h23, h24, h25]

theorem msvAt_null (cols : List String) (m : String) (y : ℕ) :
    msvAt cols (fun _ => Cell.null) m y = 0 := by
  simp [msvAt, cellFloat]

theorem c5_row_yoy : ∀ m ∈ month_order, avg_yoy msv_grid c5_row m = -50 := by
  intro m hm
  fin_cases hm
  · rw [avg_yoy_of_values msv_grid c5_row "Jan" 100 50 25 rfl rfl rfl]
    norm_num
  · rw [avg_yoy_of_values msv_grid c5_row "Feb" 100 50 25 rfl rfl rfl]
    norm_num
  · rw [avg_yoy_of_values msv_grid c5_row "Mar" 100 50 25 rfl rfl rfl]
    norm_num
  · rw [avg_yoy_of_values msv_grid c5_row "Apr" 100 50 25 rfl rfl rfl]
    norm_num
  · rw [avg_yoy_of_values msv_grid c5_row "May" 100 50 25 rfl rfl rfl]
    norm_num
  · rw [avg_yoy_of_values msv_grid c5_row "Jun" 100 50 25 rfl rfl rfl]
    norm_num
  · rw [avg_yoy_of_values msv_grid c5_row "Jul" 100 50 25 rfl rfl rfl]
    norm_num
  · rw [avg_yoy_of_values msv_grid c5_row "Aug" 100 50 25 rfl rfl rfl]
    norm_num
  · rw [avg_yoy_of_values msv_grid c5_row "Sep" 100 50 25 rfl rfl rfl]
    norm_num
  · rw [avg_yoy_of_values msv_grid c5_row "Oct" 100 50 25 rfl rfl rfl]
    norm_num
  · rw [avg_yoy_of_values msv_grid c5_row "Nov" 100 50 25 rfl rfl rfl]
    norm_num
  · rw [avg_yoy_of_values msv_grid c5_row "Dec" 100 50 25 rfl rfl rfl]
    norm_num

theorem null_row_yoy :
    ∀ m ∈ month_order, avg_yoy msv_grid (fun _ => Cell.null) m = 0 := by
  intro m hm
  rw [avg_yoy_of_values msv_grid (fun _ => Cell.null) m 0 0 0
    (msvAt_null _ _ _) (msvAt_null _ _ _) (msvAt_null _ _ _)]
  norm_num

/-- C5 counterexample: on the all-months-declining grid the maximum average
YoY is −50 (negative), yet January's normalized YoY is 1, not the claimed
0. -/
theorem C5_counterexample :
    max_avg_yoy msv_grid c5_row < 0 ∧
    normalized_yoy msv_grid c5_row "Jan" = 1 := by
  have hmax : max_avg_yoy msv_grid c5_row = -50 :=
    max_avg_yoy_const _ _ _ c5_row_yoy
  constructor
  · rw [hmax]; norm_num
  · rw [normalized_yoy, hmax, if_neg (by norm_num),
      c5_row_yoy "Jan" (by decide)]
    norm_num

/-- Witness: the amended C5 statement applied to the all-null row (maximum
0, normalized 0) and to the declining grid (maximum −50 < 0, normalized
value 1 attained). -/
theorem C5_normalized_yoy_witness :
    (normalized_yoy msv_grid (fun _ => Cell.null) "Jan" = 0) ∧
    (normalized_yoy msv_grid c5_row "Jan" =
      avg_yoy msv_grid c5_row "Jan" / max_avg_yoy msv_grid c5_row) ∧
    (∃ m ∈ month_order, normalized_yoy msv_grid c5_row m = 1) := by
  have hz : max_avg_yoy msv_grid (fun _ => Cell.null) = 0 :=
    max_avg_yoy_const _ _ _ null_row_yoy
  have hmax : max_avg_yoy msv_grid c5_row = -50 :=
    max_avg_yoy_const _ _ _ c5_row_yoy
  exact ⟨(C5_normalized_yoy msv_grid (fun _ => Cell.null)).1 hz "Jan",
    (C5_normalized_yoy msv_grid c5_row).2.1 (by rw [hmax]; norm_num) "Jan",
    (C5_normalized_yoy msv_grid c5_row).2.2 (by rw [hmax]; norm_num)⟩

/-! ## Join-key selection of the MSV merge -/

theorem contains_eq_true_iff (l : List String) (a : String) :
    l.contains a = true ↔ a ∈ l := by
  simp

/-- C4: the MSV merge selects the first of `Product Key`, `Product Title`,
`Product Keyword` present as a column of both tables; when none of the three
is, it fails with the explicit `ValueError` (modelled as `Except.error`) and
produces no merged table — the master is untouched; whenever a key is found
the merge succeeds with a table. -/
theorem C4_join_key_selection (master msv : DF) :
    (("Product Key" ∈ msv.cols ∧ "Product Key" ∈ master.cols →
       findJoinKey master msv = some "Product Key") ∧
     (¬ ("Product Key" ∈ msv.cols ∧ "Product Key" ∈ master.cols) →
       "Product Title" ∈ msv.cols ∧ "Product Title" ∈ master.cols →
       findJoinKey master msv = some "Product Title") ∧
     (¬ ("Product Key" ∈ msv.cols ∧ "Product Key" ∈ master.cols) →
       ¬ ("Product Title" ∈ msv.cols ∧ "Product Title" ∈ master.cols) →
       "Product Keyword" ∈ msv.cols ∧ "Product Keyword" ∈ master.cols →
       findJoinKey master msv = some "Product Keyword")) ∧
    ((∀ c ∈ msv_candidates, ¬ (c ∈ msv.cols ∧ c ∈ master.cols)) ↔
      merge_msv_data master msv = Except.error
        "MSV file must contain a join key column that also exists in the consolidated data.") ∧
    (∀ k, findJoinKey master msv = some k →
      merge_msv_data master msv =
        Except.ok (deriveStep (rawMergeMsv master msv k))) := by
  have hpred : ∀ c, (msv.cols.contains c && master.cols.contains c) = true ↔
      (c ∈ msv.cols ∧ c ∈ master.cols) := by
    intro c
    rw [Bool.and_eq_true, contains_eq_true_iff, contains_eq_true_iff]
  have hpredf : ∀ c, ¬ (c ∈ msv.cols ∧ c ∈ master.cols) →
      ¬ (msv.cols.contains c && master.cols.contains c) = true :=
    fun c hc hp => hc ((hpred c).mp hp)
  refine ⟨⟨?_, ?_, ?_⟩, ⟨?_, ?_⟩, ?_⟩
  · intro h
    simp only [findJoinKey, msv_candidates]
    exact List.find?_cons_of_pos _ ((hpred _).mpr h)
  · intro hn h
    simp only [findJoinKey, msv_candidates]
    have e1 : List.find? (fun c => msv.cols.contains c && master.cols.contains c)
        ["Product Key", "Product Title", "Product Keyword"] =
        List.find? (fun c => msv.cols.contains c && master.cols.contains c)
        ["Product Title", "Product Keyword"] :=
      List.find?_cons_of_neg _ (hpredf _ hn)
    rw [e1]
    exact List.find?_cons_of_pos _ ((hpred _).mpr h)
  · intro hn1 hn2 h
    simp only [findJoinKey, msv_candidates]
    have e1 : List.find? (fun c => msv.cols.contains c && master.cols.contains c)
        ["Product Key", "Product Title", "Product Keyword"] =
        List.find? (fun c => msv.cols.contains c && master.cols.contains c)
        ["Product Title", "Product Keyword"] :=
      List.find?_cons_of_neg _ (hpredf _ hn1)
    have e2 : List.find? (fun c => msv.cols.contains c && master.cols.contains c)
        ["Product Title", "Product Keyword"] =
        List.find? (fun c => msv.cols.contains c && master.cols.contains c)
        ["Product Keyword"] :=
      List.find?_cons_of_neg _ (hpredf _ hn2)
    rw [e1, e2]
    exact List.find?_cons_of_pos _ ((hpred _).mpr h)
  · intro h
    have hfind : findJoinKey master msv = none :=
      List.find?_eq_none.mpr (fun c hc hp => h c hc ((hpred c).mp hp))
    simp [merge_msv_data, hfind]
  · intro heq c hc hboth
    cases hf : findJoinKey master msv with
    | none => exact (List.find?_eq_none.mp hf c hc) ((hpred c).mpr hboth)
    | some k => simp [merge_msv_data, hf] at heq
  · intro k hk
    simp [merge_msv_data, hk]

/-- A master frame carrying a title column but no explicit product key. -/
def c4_master : DF := DF.mk ["Product Title", "X"] []

/-- An MSV frame joinable on the title. -/
def c4_msv : DF := DF.mk ["Product Title", "Jan 2023"] []

/-- An MSV frame with no usable join key. -/
def c4_msv_bad : DF := DF.mk ["Foo"] []

/-- Witness: C4 at concrete frames — a title-only pair selects
`Product Title` (product key absent), and a pair sharing no candidate
column produces the explicit error. -/
theorem C4_join_key_selection_witness :
    findJoinKey c4_master c4_msv = some "Product Title" ∧
    merge_msv_data c4_master c4_msv_bad = Except.error
      "MSV file must contain a join key column that also exists in the consolidated data." :=
  ⟨(C4_join_key_selection c4_master c4_msv).1.2.1 (by decide) (by decide),
   (C4_join_key_selection c4_master c4_msv_bad).2.1.mp (by decide)⟩

/-! ## First-seen semantics of the Master Product Builder -/

/-- The master row for key `k`, projected to its title cell. -/
def masterTitleLookup (df : DF) (k : String) : Option Cell :=
  (df.rows.find? (fun r => decide (r "product_key" = Cell.str k))).map
    (fun r => r "Product Title")

theorem find?_filter_ne {α : Type} {β : Type} [DecidableEq β] (key : α → β)
    (x : α) (k : β) (hx : key x ≠ k) :
    ∀ xs : List α,
      (xs.filter (fun y => key y ≠ key x)).find?
        (fun y => decide (key y = k)) =
      xs.find? (fun y => decide (key y = k))
  | [] => rfl
  | y :: ys => by
    by_cases hy : key y = key x
    · rw [List.filter_cons_of_neg (by simp [hy])]
      rw [List.find?_cons_of_neg _ (by simp [hy, hx])]
      exact find?_filter_ne key x k hx ys
    · rw [List.filter_cons_of_pos (by simp [hy])]
      by_cases hk : key y = k
      · rw [List.find?_cons_of_pos _ (by simp [hk]),
          List.find?_cons_of_pos _ (by simp [hk])]
      · rw [List.find?_cons_of_neg _ (by simp [hk]),
          List.find?_cons_of_neg _ (by simp [hk])]
        exact find?_filter_ne key x k hx ys

/-- Deduplication keeping the first occurrence per key does not change the
first record found for any key. -/
theorem find?_dedupKeepFirstBy {α : Type} {β : Type} [DecidableEq β]
    (key : α → β) (l : List α) (k : β) :
    (dedupKeepFirstBy key l).find? (fun y => decide (key y = k)) =
      l.find? (fun y => decide (key y = k)) := by
  induction l using dedupKeepFirstBy.induct key with
  | case1 => rw [dedupKeepFirstBy]
  | case2 x xs ih =>
    rw [dedupKeepFirstBy]
    by_cases hk : key x = k
    · rw [List.find?_cons_of_pos _ (by simp [hk]),
        List.find?_cons_of_pos _ (by simp [hk])]
    · rw [List.find?_cons_of_neg _ (by simp [hk]),
        List.find?_cons_of_neg _ (by simp [hk]), ih,
        find?_filter_ne key x k hk xs]

/-- The master's title for key `k` is the title of the first record with
that key in the supplied record stream. -/
theorem build_master_title (monthly : List (String × DF)) (k : String)
    (t b : Cell)
    (h : (master_records monthly).find? (fun q => decide (q.1 = k)) =
      some (k, t, b)) :
    masterTitleLookup (build_master_product_list monthly) k = some t := by
  rw [masterTitleLookup, build_master_product_list]
  rw [List.find?_map]
  have hfun : ((fun r => decide (r "product_key" = Cell.str k)) ∘ masterRowOf)
      = (fun q : String × Cell × Cell => decide (q.1 = k)) := by
    funext q
    simp [masterRowOf, Function.comp]
  rw [hfun, find?_dedupKeepFirstBy, h]
  rfl

/-- C6 (amended): the Master Product Builder iterates months in the order
the snapshot collection supplies them (the dictionary's insertion order),
not in canonical calendar order, and within each month keeps the first
record per key; so for two supplied months the first-supplied month's title
wins for any shared key, whichever calendar months they are.  When the
collection supplies `Jan` before `Feb`, the Jan title wins. -/
theorem C6_first_seen_supplied_order (m1 m2 : String) (df1 df2 : DF)
    (k : String) (t b : Cell)
    (h : (frame_records df1).find? (fun q => decide (q.1 = k)) =
      some (k, t, b)) :
    masterTitleLookup (build_master_product_list [(m1, df1), (m2, df2)]) k =
      some t := by
  apply build_master_title _ _ _ b
  have hm : master_records [(m1, df1), (m2, df2)] =
      frame_records df1 ++ frame_records df2 := by
    simp [master_records]
  rw [hm, List.find?_append, h]
  rfl

/-- The `Feb` snapshot: one row titled `"COKE"`. -/
def c6_feb : DF :=
  DF.mk ["Title"] [fun c => if c = "Title" then Cell.str "COKE" else Cell.null]

/-- The `Jan` snapshot: one row titled `"coke"` (same normalized key). -/
def c6_jan : DF :=
  DF.mk ["Title"] [fun c => if c = "Title" then Cell.str "coke" else Cell.null]

theorem c6_jan_record :
    (frame_records c6_jan).find? (fun q => decide (q.1 = "coke")) =
      some ("coke", Cell.str "coke", Cell.str "") := by
  simp [frame_records, c6_jan, normalize_column_names, titleCol, brandCol,
    findColBy, lowerStr, stripStr, pyStrip, pyIsSpace, pyLower,
    create_product_key, collapseWS, keepChar, List.find?]

theorem c6_feb_record :
    (frame_records c6_feb).find? (fun q => decide (q.1 = "coke")) =
      some ("coke", Cell.str "COKE", Cell.str "") := by
  simp [frame_records, c6_feb, normalize_column_names, titleCol, brandCol,
    findColBy, lowerStr, stripStr, pyStrip, pyIsSpace, pyLower,
    create_product_key, collapseWS, keepChar, List.find?]

/-- C6 counterexample: when the collection supplies the `Feb` snapshot
before the `Jan` one, the master row's title for the shared key is the Feb
spelling `"COKE"` — not the Jan spelling `"coke"` — so the builder does not
iterate months in canonical calendar order regardless of supplied order. -/
theorem C6_counterexample :
    masterTitleLookup
        (build_master_product_list [("Feb", c6_feb), ("Jan", c6_jan)])
        "coke" = some (Cell.str "COKE") ∧
      some (Cell.str "COKE") ≠ some (Cell.str "coke") := by
  constructor
  · exact build_master_title _ _ _ (Cell.str "") (by
      have hm : master_records [("Feb", c6_feb), ("Jan", c6_jan)] =
          frame_records c6_feb ++ frame_records c6_jan := by
        simp [master_records]
      rw [hm, List.find?_append, c6_feb_record]
      rfl)
  · simp

/-- Witness: with `Jan` supplied first, the amended C6 gives the Jan title. -/
theorem C6_first_seen_witness :
    masterTitleLookup
        (build_master_product_list [("Jan", c6_jan), ("Feb", c6_feb)])
        "coke" = some (Cell.str "coke") :=
  C6_first_seen_supplied_order "Jan" "Feb" c6_jan c6_feb "coke"
    (Cell.str "coke") (Cell.str "") c6_jan_record

/-! ## Key uniqueness through the consolidation pipeline -/

theorem dedup_subset {α β : Type} [DecidableEq β] (key : α → β) :
    ∀ l : List α, ∀ a ∈ dedupKeepFirstBy key l, a ∈ l := by
  intro l
  induction l using dedupKeepFirstBy.induct key with
  | case1 => intro a ha; rw [dedupKeepFirstBy] at ha; exact ha
  | case2 x xs ih =>
    intro a ha
    rw [dedupKeepFirstBy] at ha
    rcases List.mem_cons.mp ha with rfl | ha
    · exact List.mem_cons_self _ _
    · exact List.mem_cons_of_mem _ (List.mem_of_mem_filter (ih a ha))

theorem dedup_keys_nodup {α β : Type} [DecidableEq β] (key : α → β)
    (l : List α) : ((dedupKeepFirstBy key l).map key).Nodup := by
  induction l using dedupKeepFirstBy.induct key with
  | case1 => rw [dedupKeepFirstBy]; exact List.nodup_nil
  | case2 x xs ih =>
    rw [dedupKeepFirstBy, List.map_cons, List.nodup_cons]
    refine ⟨fun hmem => ?_, ih⟩
    obtain ⟨a, ha, hk⟩ := List.mem_map.mp hmem
    have := List.of_mem_filter (dedup_subset key _ a ha)
    rw [hk] at this
    simp at this

theorem mem_map_key_dedup {α β : Type} [DecidableEq β] (key : α → β)
    (l : List α) (k : β) :
    k ∈ (dedupKeepFirstBy key l).map key ↔ k ∈ l.map key := by
  induction l using dedupKeepFirstBy.induct key with
  | case1 => rw [dedupKeepFirstBy]
  | case2 x xs ih =>
    rw [dedupKeepFirstBy, List.map_cons, List.map_cons, List.mem_cons,
      List.mem_cons, ih]
    by_cases hk : k = key x
    · subst hk; simp
    · simp only [hk, false_or]
      constructor
      · intro h
        obtain ⟨a, ha, rfl⟩ := List.mem_map.mp h
        exact List.mem_map_of_mem key (List.mem_of_mem_filter ha)
      · intro h
        obtain ⟨a, ha, rfl⟩ := List.mem_map.mp h
        refine List.mem_map_of_mem key (List.mem_filter.mpr ⟨ha, ?_⟩)
        simpa using hk

theorem filter_key_singleton {α β : Type} [DecidableEq β] {f : α → β}
    {l : List α} (h : (l.map f).Nodup) (v : β) :
    l.filter (fun a => decide (f a = v)) = [] ∨
      ∃ a, l.filter (fun a => decide (f a = v)) = [a] := by
  induction l with
  | nil => exact Or.inl rfl
  | cons x xs ih =>
    rw [List.map_cons, List.nodup_cons] at h
    by_cases hx : f x = v
    · right
      refine ⟨x, ?_⟩
      rw [List.filter_cons_of_pos (by simp [hx])]
      have hnil : xs.filter (fun a => decide (f a = v)) = [] := by
        refine List.filter_eq_nil_iff.mpr (fun a ha => ?_)
        simp only [decide_eq_true_eq]
        intro hv
        have hax : f a = f x := hv.trans hx.symm
        exact h.1 (hax ▸ List.mem_map_of_mem f ha)
      rw [hnil]
    · rw [List.filter_cons_of_neg (by simp [hx])]
      exact ih h.2

/-- With right-unique join keys each left row produces exactly one merged
row, agreeing with the left row on every left column. -/
theorem mergeRowsFor_singleton (left right : DF) (key suffix : String)
    (h : (right.rows.map (fun r => r key)).Nodup) (lr : String → Cell) :
    ∃ r', mergeRowsFor left right key suffix lr = [r'] ∧
      ∀ c ∈ left.cols, r' c = lr c := by
  rcases filter_key_singleton h (lr key) with hf | ⟨rr, hf⟩
  · refine ⟨_, by rw [mergeRowsFor, hf], fun c hc => ?_⟩
    simp [mergeRowFun, hc]
  · refine ⟨_, by rw [mergeRowsFor, hf]; rfl, fun c hc => ?_⟩
    simp [mergeRowFun, hc]

theorem mergeLeft_length (left right : DF) (key suffix : String)
    (h : (right.rows.map (fun r => r key)).Nodup) :
    (mergeLeft left right key suffix).rows.length = left.rows.length := by
  simp only [mergeLeft]
  induction left.rows with
  | nil => rfl
  | cons lr rest ih =>
    obtain ⟨r', hr', _⟩ := mergeRowsFor_singleton left right key suffix h lr
    rw [List.flatMap_cons, hr']
    simpa using ih

theorem mergeLeft_cells (left right : DF) (key suffix c : String)
    (hc : c ∈ left.cols)
    (h : (right.rows.map (fun r => r key)).Nodup) :
    (mergeLeft left right key suffix).rows.map (fun r => r c) =
      left.rows.map (fun r => r c) := by
  simp only [mergeLeft]
  induction left.rows with
  | nil => rfl
  | cons lr rest ih =>
    obtain ⟨r', hr', hagree⟩ := mergeRowsFor_singleton left right key suffix h lr
    rw [List.flatMap_cons, hr']
    simpa [hagree c hc] using ih

theorem mergeLeft_mem_cols_left (left right : DF) (key suffix c : String)
    (hc : c ∈ left.cols) : c ∈ (mergeLeft left right key suffix).cols := by
  simp only [mergeLeft]
  exact List.mem_append_left _ hc

theorem setCol_cells (df : DF) (name : String)
    (f : List String → (String → Cell) → Cell) (c : String) (hc : c ≠ name) :
    (setCol df name f).rows.map (fun r => r c) =
      df.rows.map (fun r => r c) := by
  simp only [setCol, List.map_map]
  exact List.map_congr_left (fun r _ => by simp [Function.comp, hc])

theorem setCol_length (df : DF) (name : String)
    (f : List String → (String → Cell) → Cell) :
    (setCol df name f).rows.length = df.rows.length := by
  simp [setCol]

theorem setCol_mem_cols (df : DF) (name : String)
    (f : List String → (String → Cell) → Cell) (c : String)
    (hc : c ∈ df.cols) : c ∈ (setCol df name f).cols := by
  simp only [setCol]
  split
  · exact hc
  · exact List.mem_append_left _ hc

theorem setCol_name_mem (df : DF) (name : String)
    (f : List String → (String → Cell) → Cell) :
    name ∈ (setCol df name f).cols := by
  simp only [setCol]
  split
  · assumption
  · exact List.mem_append_right _ (List.mem_singleton.mpr rfl)

theorem cell_str_injective : Function.Injective Cell.str := by
  intro a b h
  injection h

theorem map_map_congr {A B C : Type} (l : List A) (f : A → B) (g : B → C)
    (h : A → C) (hh : ∀ a, g (f a) = h a) : (l.map f).map g = l.map h := by
  rw [List.map_map]
  exact List.map_congr_left (fun a _ => hh a)

theorem dedup_str_keys_nodup {α : Type} (key : α → String) (l : List α) :
    ((dedupKeepFirstBy key l).map (fun q => Cell.str (key q))).Nodup := by
  have h := (dedup_keys_nodup key l).map cell_str_injective
  rwa [List.map_map] at h

theorem get_december_keys_nodup (monthly : List (String × DF)) :
    ((get_december_data monthly).rows.map
      (fun r => r "product_key")).Nodup := by
  rw [get_december_data]
  cases monthLookup monthly "Dec" with
  | none => exact List.nodup_nil
  | some df0 =>
    rw [map_map_congr _ _ _ (fun q : String × Cell × Cell => Cell.str q.1)
      (fun q => by simp)]
    exact dedup_str_keys_nodup _ _

theorem get_monthly_popularity_keys_nodup (monthly : List (String × DF))
    (m : String) :
    ((get_monthly_popularity monthly m).rows.map
      (fun r => r "product_key")).Nodup := by
  rw [get_monthly_popularity]
  cases monthLookup monthly m with
  | none => exact List.nodup_nil
  | some df0 =>
    rw [map_map_congr _ _ _ (fun q : String × Cell => Cell.str q.1)
      (fun q => by simp)]
    exact dedup_str_keys_nodup _ _

theorem master_records_key_ne (monthly : List (String × DF)) :
    ∀ q ∈ master_records monthly, q.1 ≠ "" := by
  intro q hq
  obtain ⟨p, _, hp⟩ := List.mem_flatMap.mp hq
  obtain ⟨r, _, hr⟩ := List.mem_filterMap.mp hp
  by_cases hk : create_product_key
      (if titleCol (normalize_column_names p.2).cols ∈
          (normalize_column_names p.2).cols then
        r (titleCol (normalize_column_names p.2).cols) else Cell.str "") ≠ ""
  · rw [if_pos hk] at hr
    obtain rfl := Option.some.inj hr
    exact hk
  · rw [if_neg hk] at hr
    cases hr
/-- Invariant carried through the consolidation merges. -/
def keyInvariant (monthly : List (String × DF)) (df : DF) : Prop :=
  "product_key" ∈ df.cols ∧
  df.rows.map (fun r => r "product_key") =
    (dedupKeepFirstBy (fun q => q.1) (master_records monthly)).map
      (fun q => Cell.str q.1)

theorem keyInvariant_setCol {monthly : List (String × DF)} {df : DF}
    (name : String) (f : List String → (String → Cell) → Cell)
    (hn : name ≠ "product_key") (h : keyInvariant monthly df) :
    keyInvariant monthly (setCol df name f) :=
  ⟨setCol_mem_cols df name f _ h.1,
   (setCol_cells df name f _ (fun he => hn he.symm)).trans h.2⟩

theorem keyInvariant_merge {monthly : List (String × DF)} {df : DF}
    (right : DF) (suffix : String)
    (hr : (right.rows.map (fun r => r "product_key")).Nodup)
    (h : keyInvariant monthly df) :
    keyInvariant monthly (mergeLeft df right "product_key" suffix) :=
  ⟨mergeLeft_mem_cols_left df right _ suffix _ h.1,
   (mergeLeft_cells df right "product_key" suffix "product_key" h.1 hr).trans
     h.2⟩

theorem build_master_key_cells (monthly : List (String × DF)) :
    (build_master_product_list monthly).rows.map (fun r => r "product_key") =
      (dedupKeepFirstBy (fun q => q.1) (master_records monthly)).map
        (fun q => Cell.str q.1) := by
  rw [build_master_product_list]
  exact map_map_congr _ _ _ _ (fun q => by simp [masterRowOf])

theorem consolidate_merged_invariant
    (classify : Cell → String × String × String)
    (monthly : List (String × DF)) :
    keyInvariant monthly (consolidate_merged classify monthly) := by
  have h0 : keyInvariant monthly (build_master_product_list monthly) :=
    ⟨by simp [build_master_product_list], build_master_key_cells monthly⟩
  have h1 : keyInvariant monthly
      (add_category_level_columns classify
        (build_master_product_list monthly)) := by
    unfold add_category_level_columns
    exact keyInvariant_setCol _ _ (by decide)
      (keyInvariant_setCol _ _ (by decide)
        (keyInvariant_setCol _ _ (by decide) h0))
  rw [consolidate_merged]
  have h4 : keyInvariant monthly
      (setCol (setCol (mergeLeft
          (add_category_level_columns classify
            (build_master_product_list monthly))
          (get_december_data monthly) "product_key" "_y")
        "Product Max Price" (fun _ r =>
          match r "Product Max Price" with
          | Cell.null => Cell.str "N/A"
          | x => Cell.str (cellToStr x)))
        "Availability" (fun _ r =>
          let x := r "Availability"
          if x ≠ Cell.null ∧ stripStr (cellToStr x) ≠ "" then x
          else Cell.str "Potential Gap")) :=
    keyInvariant_setCol _ _ (by decide)
      (keyInvariant_setCol _ _ (by decide)
        (keyInvariant_merge _ _ (get_december_keys_nodup monthly) h1))
  generalize (setCol (setCol (mergeLeft _ _ _ _) _ _) _ _ : DF) = acc at h4 ⊢
  induction month_order generalizing acc with
  | nil => exact h4
  | cons m rest ih =>
    rw [List.foldl_cons]
    exact ih _ (keyInvariant_merge _ _
      (get_monthly_popularity_keys_nodup monthly m) h4)

/-- C7: every row of the master, and of the consolidated table after the
December and twelve monthly-popularity left-joins, carries a distinct,
non-empty product key; a key is present exactly when it is a non-empty
normalized title of some row of the monthly inputs (one row per distinct
key), and the joins preserve the master's row count because every per-month
table is deduplicated by key before joining. -/
theorem C7_key_uniqueness (classify : Cell → String × String × String)
    (monthly : List (String × DF)) :
    ((build_master_product_list monthly).rows.map
      (fun r => r "product_key")).Nodup ∧
    ((consolidate_merged classify monthly).rows.map
      (fun r => r "product_key")).Nodup ∧
    ((consolidate_merged classify monthly).rows.all (fun r =>
      match r "product_key" with
      | Cell.str s => decide (s ≠ "")
      | _ => false) = true) ∧
    (∀ s : String,
      Cell.str s ∈ (consolidate_merged classify monthly).rows.map
        (fun r => r "product_key") ↔
      s ∈ (master_records monthly).map (fun q => q.1)) ∧
    (consolidate_merged classify monthly).rows.length =
      (build_master_product_list monthly).rows.length := by
  obtain ⟨hcols, hcells⟩ := consolidate_merged_invariant classify monthly
  have hmaster := build_master_key_cells monthly
  have hnodupK : ((dedupKeepFirstBy (fun q : String × Cell × Cell => q.1)
      (master_records monthly)).map (fun q => Cell.str q.1)).Nodup :=
    dedup_str_keys_nodup _ _
  refine ⟨?_, ?_, ?_, ?_, ?_⟩
  · rw [hmaster]; exact hnodupK
  · rw [hcells]; exact hnodupK
  · rw [List.all_eq_true]
    intro r hr
    have hmem : r "product_key" ∈
        (consolidate_merged classify monthly).rows.map
          (fun r => r "product_key") := List.mem_map_of_mem _ hr
    rw [hcells] at hmem
    obtain ⟨q, hq, hv⟩ := List.mem_map.mp hmem
    rw [← hv]
    have hne := master_records_key_ne monthly q
      (dedup_subset (fun q => q.1) _ q hq)
    simpa using hne
  · intro s
    rw [hcells]
    constructor
    · intro h
      obtain ⟨q, hq, hv⟩ := List.mem_map.mp h
      have hsq : q.1 = s := cell_str_injective hv
      have hmm : q.1 ∈ (dedupKeepFirstBy (fun q : String × Cell × Cell => q.1)
          (master_records monthly)).map (fun q => q.1) :=
        List.mem_map_of_mem _ hq
      rw [mem_map_key_dedup] at hmm
      exact hsq ▸ hmm
    · intro h
      have hmm : s ∈ (dedupKeepFirstBy (fun q : String × Cell × Cell => q.1)
          (master_records monthly)).map (fun q => q.1) :=
        (mem_map_key_dedup _ _ _).mpr h
      obtain ⟨q, hq, hv⟩ := List.mem_map.mp hmm
      exact hv ▸ List.mem_map_of_mem (fun q => Cell.str q.1) hq
  · have h1 := congrArg List.length hcells
    have h2 := congrArg List.length hmaster
    rw [List.length_map, List.length_map] at h1 h2
    exact h1.trans h2.symm

/-! ## Gating of the post-merge derivations -/

/-- C10 (amended): Peak Seasonality and True Peak are gated on exactly the
same condition — both are computed precisely when the merged table's
`Peak Seasonality` column is absent or entirely empty **and** some merged
column name contains `'Jan 20'` or `'Dec 20'`; when the gate fails the merge
returns the raw merged table untouched.  In particular, an MSV merge that
leaves at least one non-empty `Peak Seasonality` value in the merged table
recomputes neither derivation and adds no `True Peak` column beyond what the
raw merge already carries. -/
theorem C10_derivation_gate (m v : DF) (k : String)
    (hk : findJoinKey m v = some k) :
    (should_calculate (rawMergeMsv m v k) = false ∨
        sample_cols (rawMergeMsv m v k) = [] →
      merge_msv_data m v = Except.ok (rawMergeMsv m v k)) ∧
    (should_calculate (rawMergeMsv m v k) = true ∧
        sample_cols (rawMergeMsv m v k) ≠ [] →
      merge_msv_data m v = Except.ok
        (setCol (setCol (rawMergeMsv m v k) "Peak Seasonality"
            (fun cols r => Cell.str (calculate_peak_seasonality cols r)))
          "True Peak"
          (fun cols r => Cell.str (calculate_true_peak cols r)))) ∧
    ("Peak Seasonality" ∈ (rawMergeMsv m v k).cols ∧
        (rawMergeMsv m v k).rows.any
          (fun r => ! effectivelyEmpty (r "Peak Seasonality")) = true →
      merge_msv_data m v = Except.ok (rawMergeMsv m v k)) := by
  have hm : merge_msv_data m v = Except.ok (deriveStep (rawMergeMsv m v k)) := by
    rw [merge_msv_data, hk]
  refine ⟨?_, ?_, ?_⟩
  · intro h
    rw [hm]
    rcases h with h | h
    · rw [deriveStep, h]
      simp
    · rw [deriveStep]
      split
      · rw [if_neg (by simpa using h)]
      · rfl
  · intro ⟨h1, h2⟩
    rw [hm, deriveStep, h1, if_pos rfl, if_pos h2]
  · intro ⟨h1, hany⟩
    obtain ⟨r, hr, hre⟩ := List.any_eq_true.mp hany
    rw [Bool.not_eq_eq_eq_not, Bool.not_true] at hre
    have hsc : should_calculate (rawMergeMsv m v k) = false := by
      rw [should_calculate, if_pos h1]
      rw [← Bool.not_eq_true, List.all_eq_true]
      intro hall
      rw [hall r hr] at hre
      cases hre
    rw [hm]
    rw [deriveStep, hsc]
    simp

/-- Master frame with a populated Peak Seasonality column. -/
def c10_master : DF :=
  DF.mk ["Product Key", "Peak Seasonality", "Jan 2023"]
    [fun c => if c = "Product Key" then Cell.str "a"
      else if c = "Peak Seasonality" then Cell.str "Jul"
      else if c = "Jan 2023" then Cell.str "5" else Cell.null]

/-- MSV frame for the witness: volume data only. -/
def c10_msv : DF :=
  DF.mk ["Product Key", "Vol"]
    [fun c => if c = "Product Key" then Cell.str "a"
      else if c = "Vol" then Cell.str "7" else Cell.null]

/-- Witness: on a master whose Peak Seasonality survives the merge
populated, the merge returns the raw merged table — nothing recomputed, no
True Peak column added. -/
theorem C10_derivation_gate_witness :
    merge_msv_data c10_master c10_msv =
      Except.ok (rawMergeMsv c10_master c10_msv "Product Key") :=
  (C10_derivation_gate c10_master c10_msv "Product Key" (by decide)).2.2
    ⟨by decide, by decide⟩

/-- Master for the C10 counterexample: a month column but no Peak
Seasonality of its own. -/
def c10_cmaster : DF :=
  DF.mk ["Product Key", "Jan 2023"]
    [fun c => if c = "Product Key" then Cell.str "a"
      else if c = "Jan 2023" then Cell.str "100" else Cell.null]

/-- MSV supplying a pre-populated Peak Seasonality, but under a key that
matches no master row. -/
def c10_cmsv : DF :=
  DF.mk ["Product Key", "Peak Seasonality"]
    [fun c => if c = "Product Key" then Cell.str "b"
      else if c = "Peak Seasonality" then Cell.str "Jul" else Cell.null]

/-- C10 counterexample: the MSV input supplies a non-empty Peak Seasonality
column, yet — because no key matches, so the merged column is all null —
the merge recomputes both derivations and **does** add a `True Peak`
column. -/
theorem C10_counterexample :
    (∀ r ∈ c10_cmsv.rows, r "Peak Seasonality" = Cell.str "Jul") ∧
    ∃ df, merge_msv_data c10_cmaster c10_cmsv = Except.ok df ∧
      "True Peak" ∈ df.cols := by
  constructor
  · decide
  · refine ⟨deriveStep (rawMergeMsv c10_cmaster c10_cmsv "Product Key"),
      ?_, ?_⟩
    · rw [merge_msv_data, show findJoinKey c10_cmaster c10_cmsv =
        some "Product Key" from by decide]
    · rw [deriveStep,
        show should_calculate (rawMergeMsv c10_cmaster c10_cmsv "Product Key")
          = true from by decide,
        if_pos rfl,
        if_pos (by decide :
          sample_cols (rawMergeMsv c10_cmaster c10_cmsv "Product Key") ≠ [])]
      exact setCol_name_mem _ _ _

/-! ## C3: idempotence of the MSV merge (claim C3)

Row- and column-level anatomy of `rawMergeMsv`, used to settle whether
merging the same MSV table twice equals merging it once. -/

theorem append_endsWithMsv (rc : String) : endsWithMsv (rc ++ "_msv") = true := by
  simp only [endsWithMsv, String.data_append]
  exact List.isSuffixOf_iff_suffix.mpr (List.suffix_append _ _)

theorem find?_rightName (leftCols : List String) (suffix c : String)
    (hcl : c ∉ leftCols) (hsuf : ∀ rc : String, rc ++ suffix ≠ c) :
    ∀ rnk : List String, c ∈ rnk →
      rnk.find? (fun rc => rightName leftCols suffix rc == c) = some c := by
  intro rnk
  induction rnk with
  | nil => intro h; cases h
  | cons x xs ih =>
    intro hmem
    by_cases hx : rightName leftCols suffix x = c
    · have hxc : x = c := by
        by_cases hxl : x ∈ leftCols
        · exact absurd (by simpa [rightName, hxl] using hx) (hsuf x)
        · simpa [rightName, hxl] using hx
      rw [hxc] at hx ⊢
      exact List.find?_cons_of_pos _ (by simp [hx])
    · have hxc : c ∈ xs := by
        rcases List.mem_cons.mp hmem with h | h
        · exact absurd (by rw [← h]; simp [rightName, hcl]) hx
        · exact h
      have e : (x :: xs).find? (fun rc => rightName leftCols suffix rc == c) =
          xs.find? (fun rc => rightName leftCols suffix rc == c) :=
        List.find?_cons_of_neg _ (by simp [hx])
      rw [e]
      exact ih hxc

theorem mergeRowFun_cell_left (leftCols rnk : List String) (suffix : String)
    (lr rr : String → Cell) (c : String) (hc : c ∈ leftCols) :
    mergeRowFun leftCols rnk suffix lr rr c = lr c := by
  simp [mergeRowFun, hc]

theorem mergeRowFun_cell_right (leftCols rnk : List String) (suffix : String)
    (lr rr : String → Cell) (c : String)
    (hcl : c ∉ leftCols) (hcr : c ∈ rnk)
    (hsuf : ∀ rc : String, rc ++ suffix ≠ c) :
    mergeRowFun leftCols rnk suffix lr rr c = rr c := by
  simp only [mergeRowFun]
  rw [if_neg hcl, find?_rightName leftCols suffix c hcl hsuf rnk hcr]

/-- Every output row of a left merge comes from a left row, either null-filled
(no match) or combined with a matching right row. -/
theorem mergeLeft_rows_char (left right : DF) (key suffix : String) :
    ∀ row ∈ (mergeLeft left right key suffix).rows, ∃ lr ∈ left.rows,
      row = mergeRowFun left.cols (right.cols.filter (fun c => c ≠ key)) suffix
          lr (fun _ => Cell.null) ∨
      ∃ rr ∈ right.rows, rr key = lr key ∧
        row = mergeRowFun left.cols (right.cols.filter (fun c => c ≠ key))
          suffix lr rr := by
  intro row hrow
  simp only [mergeLeft] at hrow
  obtain ⟨lr, hlr, hin⟩ := List.mem_flatMap.mp hrow
  refine ⟨lr, hlr, ?_⟩
  simp only [mergeRowsFor] at hin
  split at hin
  · exact Or.inl (List.mem_singleton.mp hin)
  · right
    obtain ⟨rr, hrrm, hrow'⟩ := List.mem_map.mp hin
    have h1 := List.mem_filter.mp hrrm
    exact ⟨rr, h1.1, by simpa using h1.2, hrow'.symm⟩

/-- With right-unique keys, a matching (left row, right row) pair produces its
merged row in the output. -/
theorem mergeLeft_row_exists (left right : DF) (key suffix : String)
    (h : (right.rows.map (fun r => r key)).Nodup)
    (lr : String → Cell) (hlr : lr ∈ left.rows)
    (j : String → Cell) (hj : j ∈ right.rows) (hmatch : j key = lr key) :
    mergeRowFun left.cols (right.cols.filter (fun c => c ≠ key)) suffix lr j ∈
      (mergeLeft left right key suffix).rows := by
  simp only [mergeLeft]
  refine List.mem_flatMap.mpr ⟨lr, hlr, ?_⟩
  have hjf : j ∈ right.rows.filter (fun rr => decide (rr key = lr key)) :=
    List.mem_filter.mpr ⟨hj, by simpa using hmatch⟩
  rcases filter_key_singleton h (lr key) with hnil | ⟨a, ha⟩
  · rw [hnil] at hjf; cases hjf
  · have hja : j = a := by rw [ha] at hjf; simpa using hjf
    subst hja
    simp only [mergeRowsFor, ha]
    exact List.mem_map_of_mem _ (List.mem_singleton.mpr rfl)

theorem mem_dropStale_cols (m v : DF) (k c : String) :
    c ∈ (dropStale m v k).cols ↔
      c ∈ m.cols ∧ ¬(c ∈ v.cols ∧ c ≠ k) ∧ endsWithMsv c = false := by
  simp only [dropStale, List.mem_filter, decide_eq_true_eq, not_or,
    Bool.not_eq_true]

theorem not_mem_dropStale_cols (m v : DF) (k c : String)
    (hc : c ∈ v.cols) (hk : c ≠ k) : c ∉ (dropStale m v k).cols := by
  rw [mem_dropStale_cols]
  intro h
  exact h.2.1 ⟨hc, hk⟩

/-- The lowercased-keyword cell written into the temporary `_join_lower`
column (`.astype(str).str.lower().str.strip()`). -/
def kwOverride : List String → (String → Cell) → Cell :=
  fun _ r => Cell.str (keywordNorm (r "Product Keyword"))

/-- A row extended with its `_join_lower` cell. -/
def kwRowOf (cols : List String) (r : String → Cell) : String → Cell :=
  fun c => if c = "_join_lower" then kwOverride cols r else r c

/-- Left operand of the keyword-join merge. -/
def kwLeft (m v : DF) : DF :=
  setCol (dropStale m v "Product Keyword") "_join_lower" kwOverride

/-- Right operand of the keyword-join merge. -/
def kwRight (v : DF) : DF :=
  setCol (dropColsDF v ["Product Keyword"]) "_join_lower" kwOverride

theorem rawMergeMsv_keyword_eq (m v : DF) :
    rawMergeMsv m v "Product Keyword" =
      dropColsDF (mergeLeft (kwLeft m v) (kwRight v) "_join_lower" "_msv")
        ["_join_lower"] := rfl

theorem rawMergeMsv_plain_eq (m v : DF) (k : String)
    (hk : k ≠ "Product Keyword") :
    rawMergeMsv m v k = mergeLeft (dropStale m v k) v k "_msv" := by
  simp [rawMergeMsv, hk]

theorem kwRowOf_ne (cols : List String) (r : String → Cell) (c : String)
    (hc : c ≠ "_join_lower") : kwRowOf cols r c = r c := by
  simp [kwRowOf, hc]

theorem kwRowOf_join (cols : List String) (r : String → Cell) :
    kwRowOf cols r "_join_lower" =
      Cell.str (keywordNorm (r "Product Keyword")) := by
  simp [kwRowOf, kwOverride]

theorem kwLeft_cols (m v : DF) (hjlm : "_join_lower" ∉ m.cols) :
    (kwLeft m v).cols =
      (dropStale m v "Product Keyword").cols ++ ["_join_lower"] := by
  have h : "_join_lower" ∉ (dropStale m v "Product Keyword").cols := by
    rw [mem_dropStale_cols]
    intro h'
    exact hjlm h'.1
  simp [kwLeft, setCol, h]

theorem kwRight_cols (v : DF) (hjlv : "_join_lower" ∉ v.cols) :
    (kwRight v).cols =
      v.cols.filter (fun c => ¬ c ∈ ["Product Keyword"]) ++ ["_join_lower"] := by
  have h : "_join_lower" ∉ (dropColsDF v ["Product Keyword"]).cols := by
    intro h'
    simp only [dropColsDF] at h'
    exact hjlv (List.mem_filter.mp h').1
  simp only [kwRight, setCol, dropColsDF] at h ⊢
  simp [h, hjlv]

theorem kwLeft_rows (m v : DF) : (kwLeft m v).rows =
    m.rows.map (kwRowOf (dropStale m v "Product Keyword").cols) := rfl

theorem kwRight_rows (v : DF) : (kwRight v).rows =
    v.rows.map (kwRowOf (dropColsDF v ["Product Keyword"]).cols) := rfl

theorem kwRight_join_cells (v : DF) :
    (kwRight v).rows.map (fun r => r "_join_lower") =
      v.rows.map (fun r => Cell.str (keywordNorm (r "Product Keyword"))) := by
  rw [kwRight_rows, List.map_map]
  exact List.map_congr_left (fun r _ => kwRowOf_join _ r)

/-- The right-side join cells of the selected candidate column: raw cells for
an equality join, normalized strings for the keyword join. -/
def keyCells (v : DF) (k : String) : List Cell :=
  if k = "Product Keyword" then
    v.rows.map (fun r => Cell.str (keywordNorm (r "Product Keyword")))
  else v.rows.map (fun r => r k)

theorem kwRight_nodup (v : DF)
    (h : (keyCells v "Product Keyword").Nodup) :
    ((kwRight v).rows.map (fun r => r "_join_lower")).Nodup := by
  rw [kwRight_join_cells]
  simpa [keyCells] using h

/-- Column list of the raw MSV merge: the surviving master columns followed
by the incoming MSV columns (no `_msv` suffix is ever attached). -/
theorem rawMergeMsv_cols (m v : DF) (k : String)
    (hjlm : "_join_lower" ∉ m.cols) (hjlv : "_join_lower" ∉ v.cols) :
    (rawMergeMsv m v k).cols =
      (dropStale m v k).cols ++ v.cols.filter (fun c => c ≠ k) := by
  by_cases hk : k = "Product Keyword"
  · subst hk
    rw [rawMergeMsv_keyword_eq]
    have hfv : ∀ c ∈ v.cols.filter (fun c => ¬ c ∈ ["Product Keyword"]),
        c ∈ v.cols ∧ c ≠ "Product Keyword" := by
      intro c hc
      have h1 := List.mem_filter.mp hc
      refine ⟨h1.1, ?_⟩
      have h2 := h1.2
      simp only [List.mem_singleton, decide_not, Bool.not_eq_eq_eq_not,
        Bool.not_true, decide_eq_false_iff_not] at h2
      exact h2
    have hv1f : (kwRight v).cols.filter (fun c => c ≠ "_join_lower") =
        v.cols.filter (fun c => ¬ c ∈ ["Product Keyword"]) := by
      rw [kwRight_cols v hjlv, List.filter_append]
      have h1 : (v.cols.filter (fun c => ¬ c ∈ ["Product Keyword"])).filter
          (fun c => c ≠ "_join_lower") =
          v.cols.filter (fun c => ¬ c ∈ ["Product Keyword"]) := by
        refine List.filter_eq_self.mpr (fun a ha => ?_)
        have hav := (hfv a ha).1
        simp only [decide_eq_true_eq]
        intro h'
        exact hjlv (h' ▸ hav)
      have h2 : (["_join_lower"] : List String).filter
          (fun c => c ≠ "_join_lower") = [] := by simp
      rw [h1, h2, List.append_nil]
    have hmapid : ((kwRight v).cols.filter (fun c => c ≠ "_join_lower")).map
        (rightName (kwLeft m v).cols "_msv") =
        v.cols.filter (fun c => ¬ c ∈ ["Product Keyword"]) := by
      rw [hv1f]
      have hid : ∀ c ∈ v.cols.filter (fun c => ¬ c ∈ ["Product Keyword"]),
          rightName (kwLeft m v).cols "_msv" c = c := by
        intro c hc
        obtain ⟨hcv, hck⟩ := hfv c hc
        have hni : c ∉ (kwLeft m v).cols := by
          rw [kwLeft_cols m v hjlm]
          intro hmem
          rcases List.mem_append.mp hmem with h' | h'
          · exact not_mem_dropStale_cols m v _ c hcv hck h'
          · exact hjlv ((List.mem_singleton.mp h') ▸ hcv)
        simp [rightName, hni]
      exact (List.map_congr_left hid).trans (List.map_id _)
    show ((mergeLeft (kwLeft m v) (kwRight v) "_join_lower" "_msv").cols.filter
        (fun c => ¬ c ∈ ["_join_lower"])) = _
    simp only [mergeLeft]
    rw [hmapid, kwLeft_cols m v hjlm, List.filter_append, List.filter_append]
    have p1 : (dropStale m v "Product Keyword").cols.filter
        (fun c => ¬ c ∈ ["_join_lower"]) =
        (dropStale m v "Product Keyword").cols := by
      refine List.filter_eq_self.mpr (fun a ha => ?_)
      have ham := ((mem_dropStale_cols m v _ a).mp ha).1
      simp only [List.mem_singleton, decide_not, Bool.not_eq_eq_eq_not,
        Bool.not_true, decide_eq_false_iff_not]
      intro h'
      exact hjlm (h' ▸ ham)
    have p2 : (["_join_lower"] : List String).filter
        (fun c => ¬ c ∈ ["_join_lower"]) = [] := by simp
    have p3 : (v.cols.filter (fun c => ¬ c ∈ ["Product Keyword"])).filter
        (fun c => ¬ c ∈ ["_join_lower"]) =
        v.cols.filter (fun c => ¬ c ∈ ["Product Keyword"]) := by
      refine List.filter_eq_self.mpr (fun a ha => ?_)
      have hav := (hfv a ha).1
      simp only [List.mem_singleton, decide_not, Bool.not_eq_eq_eq_not,
        Bool.not_true, decide_eq_false_iff_not]
      intro h'
      exact hjlv (h' ▸ hav)
    rw [p1, p2, p3, List.append_nil]
    congr 1
    refine List.filter_congr (fun a _ => ?_)
    simp
  · rw [rawMergeMsv_plain_eq m v k hk]
    simp only [mergeLeft]
    congr 1
    have hid : ∀ c ∈ v.cols.filter (fun c => c ≠ k),
        rightName (dropStale m v k).cols "_msv" c = c := by
      intro c hc
      have h1 := List.mem_filter.mp hc
      have hck : c ≠ k := by simpa using h1.2
      have hni : c ∉ (dropStale m v k).cols :=
        not_mem_dropStale_cols m v k c h1.1 hck
      simp [rightName, hni]
    exact (List.map_congr_left hid).trans (List.map_id _)

theorem rawMergeMsv_length (m v : DF) (k : String)
    (h : (keyCells v k).Nodup) :
    (rawMergeMsv m v k).rows.length = m.rows.length := by
  by_cases hk : k = "Product Keyword"
  · subst hk
    rw [rawMergeMsv_keyword_eq]
    have hlen := mergeLeft_length (kwLeft m v) (kwRight v) "_join_lower" "_msv"
      (kwRight_nodup v h)
    have h2 : (kwLeft m v).rows.length = m.rows.length := by
      rw [kwLeft_rows, List.length_map]
    exact hlen.trans h2
  · rw [rawMergeMsv_plain_eq m v k hk]
    have hnod : (v.rows.map (fun r => r k)).Nodup := by
      simpa [keyCells, hk] using h
    exact mergeLeft_length (dropStale m v k) v k "_msv" hnod

theorem rawMergeMsv_left_cells (m v : DF) (k c : String)
    (h : (keyCells v k).Nodup)
    (hc : c ∈ (dropStale m v k).cols) (hjl : c ≠ "_join_lower") :
    (rawMergeMsv m v k).rows.map (fun r => r c) =
      m.rows.map (fun r => r c) := by
  by_cases hk : k = "Product Keyword"
  · subst hk
    rw [rawMergeMsv_keyword_eq]
    have hcc1 : c ∈ (kwLeft m v).cols := setCol_mem_cols _ _ _ c hc
    have hml := mergeLeft_cells (kwLeft m v) (kwRight v) "_join_lower" "_msv" c
      hcc1 (kwRight_nodup v h)
    have hsc : (kwLeft m v).rows.map (fun r => r c) =
        m.rows.map (fun r => r c) := by
      rw [kwLeft_rows, List.map_map]
      exact List.map_congr_left (fun r _ => kwRowOf_ne _ r c hjl)
    exact hml.trans hsc
  · rw [rawMergeMsv_plain_eq m v k hk]
    have hnod : (v.rows.map (fun r => r k)).Nodup := by
      simpa [keyCells, hk] using h
    exact mergeLeft_cells (dropStale m v k) v k "_msv" c hc hnod

/-- A column whose merged value is looked up in the MSV row. -/
def vSideCol (v : DF) (k c : String) : Prop :=
  c ∈ v.cols ∧ c ≠ k ∧ endsWithMsv c = false ∧ c ≠ "_join_lower"

/-- The join condition of the MSV merge: cell equality, except that a keyword
join compares the lowercased stripped string forms. -/
def rowMatches (k : String) (a j : String → Cell) : Prop :=
  if k = "Product Keyword" then
    keywordNorm (j "Product Keyword") = keywordNorm (a "Product Keyword")
  else j k = a k

theorem vSide_suffix (v : DF) (k c : String) (h : vSideCol v k c) :
    ∀ rc : String, rc ++ "_msv" ≠ c := by
  intro rc hrc
  have h1 := append_endsWithMsv rc
  rw [hrc, h.2.2.1] at h1
  exact Bool.false_ne_true h1

theorem vSide_not_left (m v : DF) (k c : String) (h : vSideCol v k c) :
    c ∉ (dropStale m v k).cols :=
  not_mem_dropStale_cols m v k c h.1 h.2.1

theorem vSide_mem_kwRight_rnk (v : DF) (c : String)
    (hjlv : "_join_lower" ∉ v.cols)
    (hvs : vSideCol v "Product Keyword" c) :
    c ∈ (kwRight v).cols.filter (fun c => c ≠ "_join_lower") := by
  refine List.mem_filter.mpr ⟨?_, by simp [hvs.2.2.2]⟩
  rw [kwRight_cols v hjlv]
  refine List.mem_append.mpr (Or.inl ?_)
  refine List.mem_filter.mpr ⟨hvs.1, ?_⟩
  simp [hvs.2.1]

theorem vSide_not_kwLeft (m v : DF) (c : String)
    (hjlm : "_join_lower" ∉ m.cols)
    (hvs : vSideCol v "Product Keyword" c) :
    c ∉ (kwLeft m v).cols := by
  rw [kwLeft_cols m v hjlm]
  intro hmem
  rcases List.mem_append.mp hmem with h | h
  · exact not_mem_dropStale_cols m v _ c hvs.1 hvs.2.1 h
  · exact hvs.2.2.2 (List.mem_singleton.mp h)

/-- Anatomy of a raw-merge output row: it extends some master row on the
surviving master columns and carries, on each MSV-side column, either nulls
(no key match) or the cells of a matching MSV row. -/
theorem rawMergeMsv_rows_char (m v : DF) (k : String)
    (hjlm : "_join_lower" ∉ m.cols) (hjlv : "_join_lower" ∉ v.cols) :
    ∀ row ∈ (rawMergeMsv m v k).rows, ∃ lr ∈ m.rows,
      (∀ c ∈ (dropStale m v k).cols, row c = lr c) ∧
      ((∀ c, vSideCol v k c → row c = Cell.null) ∨
        ∃ j ∈ v.rows, rowMatches k lr j ∧
          ∀ c, vSideCol v k c → row c = j c) := by
  intro row hrow
  by_cases hk : k = "Product Keyword"
  · subst hk
    rw [rawMergeMsv_keyword_eq] at hrow
    have hrow' : row ∈
        (mergeLeft (kwLeft m v) (kwRight v) "_join_lower" "_msv").rows := hrow
    obtain ⟨lr1, hlr1, hcase⟩ :=
      mergeLeft_rows_char (kwLeft m v) (kwRight v) "_join_lower" "_msv" row hrow'
    have hlr1' : lr1 ∈
        m.rows.map (kwRowOf (dropStale m v "Product Keyword").cols) := hlr1
    obtain ⟨lr, hlr, hlr1eq⟩ := List.mem_map.mp hlr1'
    have hlrc : ∀ c, c ≠ "_join_lower" → lr1 c = lr c := by
      intro c hcne
      rw [← hlr1eq]
      exact kwRowOf_ne _ lr c hcne
    have hAgen : ∀ X : String → Cell,
        row = mergeRowFun (kwLeft m v).cols
          ((kwRight v).cols.filter (fun c => c ≠ "_join_lower")) "_msv" lr1 X →
        ∀ c ∈ (dropStale m v "Product Keyword").cols, row c = lr c := by
      intro X hX c hc
      have hcnjl : c ≠ "_join_lower" := by
        intro hcc
        exact hjlm (hcc ▸ ((mem_dropStale_cols m v _ c).mp hc).1)
      have hcl : c ∈ (kwLeft m v).cols := setCol_mem_cols _ _ _ c hc
      rw [hX, mergeRowFun_cell_left _ _ _ _ _ c hcl]
      exact hlrc c hcnjl
    have hVgen : ∀ X : String → Cell,
        row = mergeRowFun (kwLeft m v).cols
          ((kwRight v).cols.filter (fun c => c ≠ "_join_lower")) "_msv" lr1 X →
        ∀ c, vSideCol v "Product Keyword" c → row c = X c := by
      intro X hX c hvs
      rw [hX]
      exact mergeRowFun_cell_right _ _ _ _ _ c
        (vSide_not_kwLeft m v c hjlm hvs)
        (vSide_mem_kwRight_rnk v c hjlv hvs) (vSide_suffix v _ c hvs)
    rcases hcase with hnull | ⟨rr1, hrr1, hmatch1, hroweq⟩
    · exact ⟨lr, hlr, hAgen _ hnull,
        Or.inl (fun c hvs => hVgen _ hnull c hvs)⟩
    · have hrr1' : rr1 ∈
          v.rows.map (kwRowOf (dropColsDF v ["Product Keyword"]).cols) := hrr1
      obtain ⟨j, hj, hjeq⟩ := List.mem_map.mp hrr1'
      refine ⟨lr, hlr, hAgen _ hroweq, Or.inr ⟨j, hj, ?_, ?_⟩⟩
      · have h1 : rr1 "_join_lower" =
            Cell.str (keywordNorm (j "Product Keyword")) := by
          rw [← hjeq]
          exact kwRowOf_join _ j
        have h2 : lr1 "_join_lower" =
            Cell.str (keywordNorm (lr "Product Keyword")) := by
          rw [← hlr1eq]
          exact kwRowOf_join _ lr
        have h3 := hmatch1
        rw [h1, h2] at h3
        show keywordNorm (j "Product Keyword") =
          keywordNorm (lr "Product Keyword")
        exact Cell.str.inj h3
      · intro c hvs
        rw [hVgen _ hroweq c hvs, ← hjeq]
        exact kwRowOf_ne _ j c hvs.2.2.2
  · rw [rawMergeMsv_plain_eq m v k hk] at hrow
    obtain ⟨lr, hlr, hcase⟩ :=
      mergeLeft_rows_char (dropStale m v k) v k "_msv" row hrow
    have hAgen : ∀ X : String → Cell,
        row = mergeRowFun (dropStale m v k).cols
          (v.cols.filter (fun c => c ≠ k)) "_msv" lr X →
        ∀ c ∈ (dropStale m v k).cols, row c = lr c := by
      intro X hX c hc
      rw [hX]
      exact mergeRowFun_cell_left _ _ _ _ _ c hc
    have hVgen : ∀ X : String → Cell,
        row = mergeRowFun (dropStale m v k).cols
          (v.cols.filter (fun c => c ≠ k)) "_msv" lr X →
        ∀ c, vSideCol v k c → row c = X c := by
      intro X hX c hvs
      rw [hX]
      exact mergeRowFun_cell_right _ _ _ _ _ c (vSide_not_left m v k c hvs)
        (List.mem_filter.mpr ⟨hvs.1, by simp [hvs.2.1]⟩)
        (vSide_suffix v k c hvs)
    rcases hcase with hnull | ⟨j, hj, hmatch, hroweq⟩
    · exact ⟨lr, hlr, hAgen _ hnull,
        Or.inl (fun c hvs => hVgen _ hnull c hvs)⟩
    · refine ⟨lr, hlr, hAgen _ hroweq, Or.inr ⟨j, hj, ?_, hVgen _ hroweq⟩⟩
      unfold rowMatches
      rw [if_neg hk]
      exact hmatch

/-- With right-unique keys, every master row that matches an MSV row produces
an output row carrying that MSV row's cells on the MSV-side columns. -/
theorem rawMergeMsv_row_exists (m v : DF) (k : String)
    (h : (keyCells v k).Nodup)
    (hjlm : "_join_lower" ∉ m.cols) (hjlv : "_join_lower" ∉ v.cols)
    (lr : String → Cell) (hlr : lr ∈ m.rows)
    (j : String → Cell) (hj : j ∈ v.rows) (hmatch : rowMatches k lr j) :
    ∃ row ∈ (rawMergeMsv m v k).rows, ∀ c, vSideCol v k c → row c = j c := by
  by_cases hk : k = "Product Keyword"
  · subst hk
    rw [rawMergeMsv_keyword_eq]
    have hm : keywordNorm (j "Product Keyword") =
        keywordNorm (lr "Product Keyword") := hmatch
    have hlr1 : kwRowOf (dropStale m v "Product Keyword").cols lr ∈
        (kwLeft m v).rows := List.mem_map_of_mem _ hlr
    have hj1 : kwRowOf (dropColsDF v ["Product Keyword"]).cols j ∈
        (kwRight v).rows := List.mem_map_of_mem _ hj
    have hmm : kwRowOf (dropColsDF v ["Product Keyword"]).cols j "_join_lower" =
        kwRowOf (dropStale m v "Product Keyword").cols lr "_join_lower" := by
      rw [kwRowOf_join, kwRowOf_join, hm]
    have hmem := mergeLeft_row_exists (kwLeft m v) (kwRight v) "_join_lower"
      "_msv" (kwRight_nodup v h) _ hlr1 _ hj1 hmm
    refine ⟨_, hmem, ?_⟩
    intro c hvs
    rw [mergeRowFun_cell_right _ _ _ _ _ c (vSide_not_kwLeft m v c hjlm hvs)
      (vSide_mem_kwRight_rnk v c hjlv hvs) (vSide_suffix v _ c hvs)]
    exact kwRowOf_ne _ j c hvs.2.2.2
  · rw [rawMergeMsv_plain_eq m v k hk]
    have hm : j k = lr k := by
      unfold rowMatches at hmatch
      rwa [if_neg hk] at hmatch
    have hnod : (v.rows.map (fun r => r k)).Nodup := by
      simpa [keyCells, hk] using h
    have hmem := mergeLeft_row_exists (dropStale m v k) v k "_msv" hnod
      lr hlr j hj hm
    refine ⟨_, hmem, ?_⟩
    intro c hvs
    exact mergeRowFun_cell_right _ _ _ _ _ c (vSide_not_left m v k c hvs)
      (List.mem_filter.mpr ⟨hvs.1, by simp [hvs.2.1]⟩)
      (vSide_suffix v k c hvs)

theorem setCol_cols_mem (df : DF) (name : String)
    (f : List String → (String → Cell) → Cell) (c : String) :
    c ∈ (setCol df name f).cols ↔ c ∈ df.cols ∨ c = name := by
  simp only [setCol]
  split
  · rename_i hmem
    constructor
    · exact Or.inl
    · rintro (h | rfl)
      · exact h
      · exact hmem
  · simp [List.mem_append]

theorem deriveStep_cols_mem (df : DF) (c : String) :
    c ∈ (deriveStep df).cols ↔ c ∈ df.cols ∨
      ((should_calculate df = true ∧ sample_cols df ≠ []) ∧
        (c = "Peak Seasonality" ∨ c = "True Peak")) := by
  unfold deriveStep
  split
  · split
    · rename_i h1 h2
      rw [setCol_cols_mem, setCol_cols_mem]
      constructor
      · rintro ((h | h) | h)
        · exact Or.inl h
        · exact Or.inr ⟨⟨h1, h2⟩, Or.inl h⟩
        · exact Or.inr ⟨⟨h1, h2⟩, Or.inr h⟩
      · rintro (h | ⟨_, (rfl | rfl)⟩)
        · exact Or.inl (Or.inl h)
        · exact Or.inl (Or.inr rfl)
        · exact Or.inr rfl
    · rename_i h2
      constructor
      · exact Or.inl
      · rintro (h | ⟨⟨_, hne⟩, _⟩)
        · exact h
        · exact absurd hne h2
  · rename_i h1
    constructor
    · exact Or.inl
    · rintro (h | ⟨⟨hsc, _⟩, _⟩)
      · exact h
      · exact absurd hsc h1

theorem deriveStep_length (df : DF) :
    (deriveStep df).rows.length = df.rows.length := by
  unfold deriveStep
  split
  · split
    · rw [setCol_length, setCol_length]
    · rfl
  · rfl

theorem deriveStep_noop (df : DF)
    (h : ¬(should_calculate df = true ∧ sample_cols df ≠ [])) :
    deriveStep df = df := by
  unfold deriveStep
  split
  · split
    · rename_i h1 h2
      exact absurd ⟨h1, h2⟩ h
    · rfl
  · rfl

theorem sample_cols_ne_iff (df : DF) :
    sample_cols df ≠ [] ↔ ∃ c ∈ df.cols,
      (containsSub "Jan 20" c || containsSub "Dec 20" c) = true := by
  unfold sample_cols
  constructor
  · intro h
    rcases List.exists_mem_of_ne_nil _ h with ⟨c, hc⟩
    exact ⟨c, (List.mem_filter.mp hc).1, (List.mem_filter.mp hc).2⟩
  · rintro ⟨c, hc, hp⟩ hnil
    have hmem : c ∈ df.cols.filter
        (fun c => containsSub "Jan 20" c || containsSub "Dec 20" c) :=
      List.mem_filter.mpr ⟨hc, hp⟩
    rw [hnil] at hmem
    cases hmem

theorem should_calculate_false_iff (df : DF) :
    should_calculate df = false ↔ "Peak Seasonality" ∈ df.cols ∧
      ∃ r ∈ df.rows, effectivelyEmpty (r "Peak Seasonality") = false := by
  unfold should_calculate
  split
  · rename_i hmem
    simp [List.all_eq_false, hmem]
  · rename_i hmem
    simp [hmem]

/-- Well-keyed MSV table: each candidate join column it carries has pairwise
distinct values — raw cells (and no nulls, matching pandas' never-matching
NaN keys) for the equality-joined candidates, normalized strings for the
keyword column. -/
def msvKeysOK (v : DF) : Prop :=
  ("Product Key" ∈ v.cols →
    (v.rows.map (fun r => r "Product Key")).Nodup ∧
      ∀ r ∈ v.rows, r "Product Key" ≠ Cell.null) ∧
  ("Product Title" ∈ v.cols →
    (v.rows.map (fun r => r "Product Title")).Nodup ∧
      ∀ r ∈ v.rows, r "Product Title" ≠ Cell.null) ∧
  ("Product Keyword" ∈ v.cols →
    (v.rows.map (fun r =>
      Cell.str (keywordNorm (r "Product Keyword")))).Nodup)

theorem keyCells_nodup (v : DF) (k : String) (hks : msvKeysOK v)
    (hkm : k ∈ msv_candidates) (hkv : k ∈ v.cols) :
    (keyCells v k).Nodup := by
  obtain ⟨hPK, hT, hKW⟩ := hks
  fin_cases hkm
  · simpa [keyCells] using (hPK hkv).1
  · simpa [keyCells] using (hT hkv).1
  · simpa [keyCells] using hKW hkv

theorem candidate_props : ∀ k ∈ msv_candidates, endsWithMsv k = false ∧
    k ≠ "_join_lower" ∧ k ≠ "Peak Seasonality" ∧ k ≠ "True Peak" := by decide

theorem derived_col_props :
    endsWithMsv "Peak Seasonality" = false ∧ endsWithMsv "True Peak" = false ∧
      ("Peak Seasonality" : String) ≠ "_join_lower" ∧
      ("True Peak" : String) ≠ "_join_lower" := by decide

theorem findJoinKey_facts (a b : DF) (k : String)
    (h : findJoinKey a b = some k) :
    k ∈ msv_candidates ∧ k ∈ b.cols ∧ k ∈ a.cols := by
  unfold findJoinKey at h
  have h2 := List.mem_of_find?_eq_some h
  have h1 := List.find?_some h
  rw [Bool.and_eq_true] at h1
  exact ⟨h2, (contains_eq_true_iff _ _).mp h1.1,
    (contains_eq_true_iff _ _).mp h1.2⟩

theorem find?_eq_keyword (p : String → Bool)
    (h : msv_candidates.find? p = some "Product Keyword") :
    p "Product Key" = false ∧ p "Product Title" = false := by
  cases hP : p "Product Key" with
  | true =>
    have e : msv_candidates.find? p = some "Product Key" :=
      List.find?_cons_of_pos _ hP
    rw [e] at h
    exact absurd (Option.some.inj h) (by decide)
  | false =>
    cases hT : p "Product Title" with
    | true =>
      have e1 : msv_candidates.find? p =
          (["Product Title", "Product Keyword"] : List String).find? p :=
        List.find?_cons_of_neg _ (by simp [hP])
      have e2 : (["Product Title", "Product Keyword"] : List String).find? p =
          some "Product Title" := List.find?_cons_of_pos _ hT
      rw [e1, e2] at h
      exact absurd (Option.some.inj h) (by decide)
    | false => exact ⟨rfl, rfl⟩

/-- C3 (amended): merging the same MSV table into the consolidated master
twice in a row yields a table with the same column set and the same row count
as merging it once, provided the MSV table's candidate join columns carry
pairwise-distinct, non-null keys (pandas' NaN join keys never match, and
duplicated keys multiply rows in a left merge) and the reserved temporary
column name `_join_lower` does not occur in either table.  The stale-column
drop before each merge is what prevents `_msv`-suffixed duplicates from
accumulating. -/
theorem C3_merge_idempotent (m v r1 r2 : DF)
    (hkeys : msvKeysOK v)
    (hjlm : "_join_lower" ∉ m.cols) (hjlv : "_join_lower" ∉ v.cols)
    (h1 : merge_msv_data m v = Except.ok r1)
    (h2 : merge_msv_data r1 v = Except.ok r2) :
    (∀ c, c ∈ r2.cols ↔ c ∈ r1.cols) ∧ r2.rows.length = r1.rows.length := by
  unfold merge_msv_data at h1 h2
  cases hk1 : findJoinKey m v with
  | none =>
    rw [hk1] at h1
    exact Except.noConfusion h1
  | some k1 =>
    rw [hk1] at h1
    have hr1 : r1 = deriveStep (rawMergeMsv m v k1) := (Except.ok.inj h1).symm
    cases hk2 : findJoinKey r1 v with
    | none =>
      rw [hk2] at h2
      exact Except.noConfusion h2
    | some k2 =>
      rw [hk2] at h2
      have hr2 : r2 = deriveStep (rawMergeMsv r1 v k2) := (Except.ok.inj h2).symm
      obtain ⟨hk1c, hk1v, hk1m⟩ := findJoinKey_facts m v k1 hk1
      obtain ⟨hk2c, hk2v, hk2r⟩ := findJoinKey_facts r1 v k2 hk2
      obtain ⟨hk1msv, hk1jl, hk1ps, hk1tp⟩ := candidate_props k1 hk1c
      obtain ⟨hk2msv, hk2jl, hk2ps, hk2tp⟩ := candidate_props k2 hk2c
      have hnod2 : (keyCells v k2).Nodup := keyCells_nodup v k2 hkeys hk2c hk2v
      have hcols1 := rawMergeMsv_cols m v k1 hjlm hjlv
      have hmem1 : ∀ c, c ∈ r1.cols ↔
          (c ∈ (rawMergeMsv m v k1).cols ∨
            ((should_calculate (rawMergeMsv m v k1) = true ∧
              sample_cols (rawMergeMsv m v k1) ≠ []) ∧
              (c = "Peak Seasonality" ∨ c = "True Peak"))) := by
        intro c
        rw [hr1]
        exact deriveStep_cols_mem _ c
      have hmemraw1 : ∀ c, c ∈ (rawMergeMsv m v k1).cols ↔
          (c ∈ m.cols ∧ ¬(c ∈ v.cols ∧ c ≠ k1) ∧ endsWithMsv c = false) ∨
            (c ∈ v.cols ∧ c ≠ k1) := by
        intro c
        rw [hcols1, List.mem_append, mem_dropStale_cols]
        simp only [List.mem_filter, decide_eq_true_eq]
      have hvsub : ∀ c, c ∈ v.cols → c ∈ r1.cols := by
        intro c hc
        rw [hmem1 c]
        left
        rw [hmemraw1 c]
        by_cases hck : c = k1
        · subst hck
          exact Or.inl ⟨hk1m, fun h' => h'.2 rfl, hk1msv⟩
        · exact Or.inr ⟨hc, hck⟩
      have hmsvend : ∀ c, c ∈ r1.cols → c ∉ v.cols →
          endsWithMsv c = false := by
        intro c hc hcv
        rcases (hmem1 c).mp hc with hraw | ⟨_, hps⟩
        · rcases (hmemraw1 c).mp hraw with ⟨_, _, h'⟩ | ⟨h', _⟩
          · exact h'
          · exact absurd h' hcv
        · rcases hps with rfl | rfl
          · exact derived_col_props.1
          · exact derived_col_props.2.1
      have hjlr1 : "_join_lower" ∉ r1.cols := by
        intro hc
        rcases (hmem1 _).mp hc with hraw | ⟨_, hps⟩
        · rcases (hmemraw1 _).mp hraw with ⟨h', _, _⟩ | ⟨h', _⟩
          · exact hjlm h'
          · exact hjlv h'
        · rcases hps with h' | h'
          · exact derived_col_props.2.2.1 h'.symm
          · exact derived_col_props.2.2.2 h'.symm
      have hcols2 := rawMergeMsv_cols r1 v k2 hjlr1 hjlv
      have hmemraw2 : ∀ c, c ∈ (rawMergeMsv r1 v k2).cols ↔
          (c ∈ r1.cols ∧ ¬(c ∈ v.cols ∧ c ≠ k2) ∧ endsWithMsv c = false) ∨
            (c ∈ v.cols ∧ c ≠ k2) := by
        intro c
        rw [hcols2, List.mem_append, mem_dropStale_cols]
        simp only [List.mem_filter, decide_eq_true_eq]
      have hCORE1 : ∀ c, c ∈ (rawMergeMsv r1 v k2).cols ↔ c ∈ r1.cols := by
        intro c
        rw [hmemraw2 c]
        constructor
        · rintro (⟨h', _, _⟩ | ⟨hcv, _⟩)
          · exact h'
          · exact hvsub c hcv
        · intro hc
          by_cases hcv : c ∈ v.cols
          · by_cases hck : c = k2
            · subst hck
              exact Or.inl ⟨hc, fun h' => h'.2 rfl, hk2msv⟩
            · exact Or.inr ⟨hcv, hck⟩
          · exact Or.inl ⟨hc, fun h' => hcv h'.1, hmsvend c hc hcv⟩
      have hG2G1 : (should_calculate (rawMergeMsv r1 v k2) = true ∧
          sample_cols (rawMergeMsv r1 v k2) ≠ []) →
          (should_calculate (rawMergeMsv m v k1) = true ∧
            sample_cols (rawMergeMsv m v k1) ≠ []) := by
        intro hG2
        by_contra hG1
        have hr1raw : r1 = rawMergeMsv m v k1 := by
          rw [hr1, deriveStep_noop _ hG1]
        have hsample1 : sample_cols (rawMergeMsv m v k1) ≠ [] := by
          have hsample2 := hG2.2
          rw [sample_cols_ne_iff] at hsample2 ⊢
          obtain ⟨c, hc, hp⟩ := hsample2
          have hcr1 : c ∈ r1.cols := (hCORE1 c).mp hc
          rw [hr1raw] at hcr1
          exact ⟨c, hcr1, hp⟩
        have hsc1 : should_calculate (rawMergeMsv m v k1) = false := by
          cases hsc : should_calculate (rawMergeMsv m v k1) with
          | false => rfl
          | true => exact absurd ⟨hsc, hsample1⟩ hG1
        rw [should_calculate_false_iff] at hsc1
        obtain ⟨hpsraw1, row, hrowmem, hrowval⟩ := hsc1
        have hpsr1 : "Peak Seasonality" ∈ r1.cols := by
          rw [hr1raw]
          exact hpsraw1
        have hps2 : "Peak Seasonality" ∈ (rawMergeMsv r1 v k2).cols :=
          (hCORE1 _).mpr hpsr1
        have hrow1 : row ∈ r1.rows := by
          rw [hr1raw]
          exact hrowmem
        by_cases hpsv : "Peak Seasonality" ∈ v.cols
        · have hvsPS : vSideCol v k1 "Peak Seasonality" :=
            ⟨hpsv, fun h' => hk1ps h'.symm, derived_col_props.1,
              derived_col_props.2.2.1⟩
          obtain ⟨lr, hlr, hkept, hcase⟩ :=
            rawMergeMsv_rows_char m v k1 hjlm hjlv row hrowmem
          rcases hcase with hnull | ⟨j, hj, hmatch, hcells⟩
          · rw [hnull _ hvsPS] at hrowval
            exact absurd hrowval (by decide)
          · have hrowPS : row "Peak Seasonality" = j "Peak Seasonality" :=
              hcells _ hvsPS
            have hmatch2 : rowMatches k2 row j := by
              by_cases hkk : k2 = k1
              · subst hkk
                by_cases hkw : k2 = "Product Keyword"
                · subst hkw
                  have hkwmem : "Product Keyword" ∈
                      (dropStale m v "Product Keyword").cols := by
                    rw [mem_dropStale_cols]
                    exact ⟨hk1m, fun h' => h'.2 rfl, hk1msv⟩
                  have hrowkw : row "Product Keyword" = lr "Product Keyword" :=
                    hkept _ hkwmem
                  have hm : keywordNorm (j "Product Keyword") =
                      keywordNorm (lr "Product Keyword") := hmatch
                  show keywordNorm (j "Product Keyword") =
                    keywordNorm (row "Product Keyword")
                  rw [hrowkw]
                  exact hm
                · have hm : j k2 = lr k2 := by
                    unfold rowMatches at hmatch
                    rwa [if_neg hkw] at hmatch
                  have hkmem : k2 ∈ (dropStale m v k2).cols := by
                    rw [mem_dropStale_cols]
                    exact ⟨hk1m, fun h' => h'.2 rfl, hk1msv⟩
                  have hrowk : row k2 = lr k2 := hkept _ hkmem
                  unfold rowMatches
                  rw [if_neg hkw, hrowk]
                  exact hm
              · have hk2kw : k2 ≠ "Product Keyword" := by
                  intro hkw
                  subst hkw
                  have hfk := hk2
                  unfold findJoinKey at hfk
                  have hPT := find?_eq_keyword _ hfk
                  have hpk1 : (v.cols.contains k1 && r1.cols.contains k1)
                      = true := by
                    rw [Bool.and_eq_true]
                    exact ⟨(contains_eq_true_iff _ _).mpr hk1v,
                      (contains_eq_true_iff _ _).mpr (hvsub k1 hk1v)⟩
                  have hk1c' : k1 ∈ msv_candidates := hk1c
                  fin_cases hk1c'
                  · have hc1 := hPT.1
                    rw [hpk1] at hc1
                    exact absurd hc1 (by decide)
                  · have hc1 := hPT.2
                    rw [hpk1] at hc1
                    exact absurd hc1 (by decide)
                  · exact hkk rfl
                have hvs2 : vSideCol v k1 k2 := ⟨hk2v, hkk, hk2msv, hk2jl⟩
                have hrowk2 : row k2 = j k2 := hcells _ hvs2
                unfold rowMatches
                rw [if_neg hk2kw, hrowk2]
            obtain ⟨row', hrow'mem, hrow'cells⟩ :=
              rawMergeMsv_row_exists r1 v k2 hnod2 hjlr1 hjlv row hrow1 j hj
                hmatch2
            have hvs2PS : vSideCol v k2 "Peak Seasonality" :=
              ⟨hpsv, fun h' => hk2ps h'.symm, derived_col_props.1,
                derived_col_props.2.2.1⟩
            have hsc2 : should_calculate (rawMergeMsv r1 v k2) = false := by
              rw [should_calculate_false_iff]
              refine ⟨hps2, row', hrow'mem, ?_⟩
              rw [hrow'cells _ hvs2PS, ← hrowPS]
              exact hrowval
            rw [hG2.1] at hsc2
            exact absurd hsc2 (by decide)
        · have hpsds : "Peak Seasonality" ∈ (dropStale r1 v k2).cols := by
            rw [mem_dropStale_cols]
            exact ⟨hpsr1, fun h' => hpsv h'.1, derived_col_props.1⟩
          have hcells := rawMergeMsv_left_cells r1 v k2 "Peak Seasonality"
            hnod2 hpsds derived_col_props.2.2.1
          have hval : row "Peak Seasonality" ∈
              r1.rows.map (fun r => r "Peak Seasonality") :=
            List.mem_map_of_mem _ hrow1
          rw [← hcells] at hval
          obtain ⟨row', hrow'mem, hrow'eq⟩ := List.mem_map.mp hval
          have hsc2 : should_calculate (rawMergeMsv r1 v k2) = false := by
            rw [should_calculate_false_iff]
            refine ⟨hps2, row', hrow'mem, ?_⟩
            rw [hrow'eq]
            exact hrowval
          rw [hG2.1] at hsc2
          exact absurd hsc2 (by decide)
      constructor
      · intro c
        rw [hr2, deriveStep_cols_mem]
        constructor
        · rintro (hraw | ⟨hG2, hps⟩)
          · exact (hCORE1 c).mp hraw
          · have hG1 := hG2G1 hG2
            rw [hmem1 c]
            rcases hps with rfl | rfl
            · exact Or.inr ⟨hG1, Or.inl rfl⟩
            · exact Or.inr ⟨hG1, Or.inr rfl⟩
        · intro hc
          exact Or.inl ((hCORE1 c).mpr hc)
      · rw [hr2, deriveStep_length, rawMergeMsv_length r1 v k2 hnod2]

/-- Master table for the C3 witness: one product row. -/
def c3w_master : DF :=
  DF.mk ["Product Key", "Data"]
    [fun c => if c = "Product Key" then Cell.str "a" else Cell.num 7]

/-- Well-keyed MSV table for the C3 witness: one row, unique non-null key. -/
def c3w_msv : DF :=
  DF.mk ["Product Key", "Volume"]
    [fun c => if c = "Product Key" then Cell.str "a" else Cell.num 3]

/-- Witness: the amended C3 theorem at concrete well-keyed tables. -/
theorem C3_merge_idempotent_witness :
    ∃ r1 r2 : DF, merge_msv_data c3w_master c3w_msv = Except.ok r1 ∧
      merge_msv_data r1 c3w_msv = Except.ok r2 ∧
      ((∀ c, c ∈ r2.cols ↔ c ∈ r1.cols) ∧
        r2.rows.length = r1.rows.length) :=
  ⟨_, _, rfl, rfl,
    C3_merge_idempotent c3w_master c3w_msv _ _
      ⟨fun _ => ⟨by decide, by decide⟩, fun h => absurd h (by decide),
        fun h => absurd h (by decide)⟩
      (by decide) (by decide) rfl rfl⟩

/-- Master for the C3 counterexample: a single product row. -/
def c3_master : DF :=
  DF.mk ["Product Key", "Data"]
    [fun c => if c = "Product Key" then Cell.str "a" else Cell.num 7]

/-- MSV table with a duplicated join key: two rows both keyed `"a"`. -/
def c3_msv : DF :=
  DF.mk ["Product Key", "Volume"]
    [fun c => if c = "Product Key" then Cell.str "a" else Cell.num 3,
     fun c => if c = "Product Key" then Cell.str "a" else Cell.num 4]

/-- C3 counterexample: with a duplicated MSV join key the left merge
multiplies rows — merging once yields 2 rows, merging the same table again
yields 4 — so merging twice does not preserve the once-merged row count. -/
theorem C3_counterexample :
    ∃ d1 d2 : DF, merge_msv_data c3_master c3_msv = Except.ok d1 ∧
      merge_msv_data d1 c3_msv = Except.ok d2 ∧
      d1.rows.length = 2 ∧ d2.rows.length = 4 :=
  ⟨_, _, rfl, rfl, rfl, rfl⟩

end Consolidation